import Mathlib

/-!
Verification development for the pi-config review-hub audio generation
scripts (`generate_bark.py` and `generate_dia.py`).

The two Python scripts are shallowly embedded below.  Audio samples are
modelled as rationals, audio buffers as lists of samples, and the
external TTS model (`generate_audio` in Bark, `model.generate` in Dia)
as an oracle `ℕ → GenResult` giving, for each unit index, whether the
call raised an exception, returned `None`, or returned a sample buffer.
File writes are modelled as fields of a `RunOutput` record; stderr
warning lines are accumulated in the state as `Warn` values.
-/

namespace PiConfig

/-- Outcome of one external TTS model call: the call raised an
exception, returned `None`, or returned an audio buffer. -/
inductive GenResult where
  | exn : GenResult
  | noAudio : GenResult
  | audio : List ℚ → GenResult
deriving DecidableEq, Repr

/-- Extract the audio buffer of a `GenResult`, defaulting to `[]`. -/
def genA (gen : ℕ → GenResult) (i : ℕ) : List ℚ :=
  match gen i with
  | .audio a => a
  | _ => []

/-- One timestamp record, as written to `timestamps.json`:
`(sectionId, startTime, endTime)` with times in seconds. -/
structure TsRecord where
  sectionId : String
  startTime : ℚ
  endTime : ℚ
deriving DecidableEq, Repr

/-- A warning line printed to stderr.  `failedSeg i sid` models Bark's
"WARNING: Failed segment i (sid): e", `noAudioSeg i sid` models Bark's
"WARNING: No audio for segment i (sid)", `failedSec sid` models Dia's
"WARNING: Failed to generate section sid: e" and `noAudioSec sid`
models Dia's "WARNING: No audio generated for section sid". -/
inductive Warn where
  | failedSeg : ℕ → String → Warn
  | noAudioSeg : ℕ → String → Warn
  | failedSec : String → Warn
  | noAudioSec : String → Warn
deriving DecidableEq, Repr

/-- A buffer of `n` zero samples (`np.zeros(n)`). -/
def silence (n : ℕ) : List ℚ := List.replicate n 0

/-- `int(rate * gapMs / 1000)`: length in samples of the silence gap. -/
def gapSamples (rate gapMs : ℕ) : ℕ := rate * gapMs / 1000

/-- `s.lower()`, character by character. -/
def pyLower (s : String) : String := String.mk (s.toList.map Char.toLower)

/-- `not s.strip()`: a string strips to empty exactly when every
character is whitespace. -/
def strBlank (s : String) : Bool := s.toList.all Char.isWhitespace

/-- What one invocation of a script did: the process exit code, and the
WAV and timestamp files written, if any (`(path, contents)`). -/
structure RunOutput where
  exitCode : ℕ
  wavWritten : Option (String × List ℚ)
  tsWritten : Option (String × List TsRecord)
deriving DecidableEq, Repr

/-! ### Paths: `os.path.dirname` / `os.path.join` on POSIX paths -/

/-- Index just past the last `'/'` of the list (0 if there is none);
this is `p.rfind('/') + 1` in `posixpath.dirname`. -/
def lastSlashEnd : List Char → ℕ
  | [] => 0
  | c :: rest =>
    let r := lastSlashEnd rest
    if r = 0 then (if c = '/' then 1 else 0) else r + 1

/-- `posixpath.dirname`: everything up to the last `'/'`, with trailing
slashes stripped unless the head consists only of slashes. -/
def dirnameL (p : List Char) : List Char :=
  let head := p.take (lastSlashEnd p)
  if head.isEmpty || head.all (fun c => c == '/') then head
  else (head.reverse.dropWhile (fun c => c == '/')).reverse

/-- `posixpath.join d f` for a component `f` not starting with `'/'`. -/
def pathJoinL (d f : List Char) : List Char :=
  if d = [] then f
  else if d.getLast? = some '/' then d ++ f
  else d ++ '/' :: f

/-- Chars after the last `'/'` (the file name part of a path). -/
def basenameL (p : List Char) : List Char :=
  (p.reverse.takeWhile (fun c => c != '/')).reverse

/-- `os.path.join(os.path.dirname(output_path), "timestamps.json")`:
the path to which both scripts write the timestamp index. -/
def tsPath (outputPath : String) : String :=
  String.mk (pathJoinL (dirnameL outputPath.toList) "timestamps.json".toList)

/-! ### Peak normalization (shared by the tails of both scripts) -/

/-- `np.max(np.abs(xs))` for a non-empty `xs` (all absolute values are
nonnegative, so folding `max` from 0 agrees with `np.max` there).  On
an empty array `np.max` raises `ValueError` instead; the generate
functions below model that case as an aborting branch and only apply
`normalize` to a non-empty concatenation. -/
def maxAbs (xs : List ℚ) : ℚ := (xs.map (fun s => |s|)).foldl max 0

/-- `if max_val > 0: combined = combined / max_val * 0.95`, for the
non-empty `combined` the scripts reach this line with. -/
def normalize (xs : List ℚ) : List ℚ :=
  let m := maxAbs xs
  if 0 < m then xs.map (fun s => s / m * (95 / 100)) else xs

/-! ### Bark: `generate_bark.py` -/

/-- One entry of the script's `segments` list.  Each field is `none`
when the corresponding JSON key is absent (the script reads them with
`segment.get(...)` and a default). -/
structure BarkSegment where
  sectionId : Option String
  speakerPreset : Option String
  text : Option String
  direction : Option String
deriving DecidableEq, Repr

/-- The parsed Bark script JSON: `segments` and the optional `gapMs`
(defaulted to 400 by `script_data.get("gapMs", 400)`). -/
structure BarkScript where
  segments : List BarkSegment
  gapMs : Option ℕ
deriving DecidableEq, Repr

/-- The `EMOTION_MAP` dict: `none` models an absent key, so that
`EMOTION_MAP.get(d, "")` is `(EMOTION_MAP d).getD ""`. -/
def EMOTION_MAP : String → Option String
  | "laughs" => some "[laughter]"
  | "laughter" => some "[laughter]"
  | "pauses" => some ""
  | "pause" => some ""
  | "sighs" => some "[sighs]"
  | "sigh" => some "[sighs]"
  | "gasps" => some "[gasps]"
  | "gasp" => some "[gasps]"
  | _ => none

/-- `process_text(text, direction)`: prepend the Bark token of a
recognized direction; `if direction:` guards against `None` and `""`,
and a falsy token (absent key or pause entry) leaves the text as is. -/
def process_text (text : String) (direction : Option String) : String :=
  match direction with
  | none => text
  | some d =>
    if d = "" then text
    else
      match EMOTION_MAP (pyLower d) with
      | some tok => if tok = "" then text else tok ++ " " ++ text
      | none => text

/-- `direction and direction.lower() in ("pauses", "pause")`. -/
def barkIsPause (direction : Option String) : Bool :=
  match direction with
  | none => false
  | some d => (d != "") && (pyLower d == "pauses" || pyLower d == "pause")

/-- The mutable loop state of Bark's `generate`: the `all_audio` and
`timestamps` accumulators, `current_time`, the per-section tracking
variables, plus the model calls made (`(processed_text, preset)`) and
the stderr warnings emitted, which we track for the proofs. -/
structure BarkState where
  allAudio : List (List ℚ)
  timestamps : List TsRecord
  currentTime : ℚ
  curSection : Option String
  sectionStart : ℚ
  calls : List (String × String)
  warnings : List Warn
deriving DecidableEq, Repr

def barkInit : BarkState := ⟨[], [], 0, none, 0, [], []⟩

/-- The section-boundary block at the top of Bark's loop body: on a new
section id, close the previous section's record, append the silence
gap, advance time by the gap, and reset the section tracking. -/
def barkBoundary (gapMs : ℕ) (sid : String) (st : BarkState) : BarkState :=
  if some sid ≠ st.curSection then
    let st0 :=
      match st.curSection with
      | some prev =>
        { st with
          timestamps := st.timestamps ++ [TsRecord.mk prev st.sectionStart st.currentTime],
          allAudio := st.allAudio ++ [silence (gapSamples 24000 gapMs)],
          currentTime := st.currentTime + (gapMs : ℚ) / 1000 }
      | none => st
    { st0 with curSection := some sid, sectionStart := st0.currentTime }
  else st

/-- The model calls made by one non-skipped Bark unit: exactly one,
except that a pause direction with blank raw text makes none. -/
def barkMade (text ptext preset : String) (dir : Option String) :
    List (String × String) :=
  if barkIsPause dir && strBlank text then [] else [(ptext, preset)]

/-- The audio buffer a non-skipped Bark unit tries to produce:
`none` models an exception escaping `generate_audio`; the pause branch
puts the fixed 500 ms silence (12000 samples at 24 kHz) first and only
consults the model when the raw text is non-blank; `.noAudio` is the
model returning `None`. -/
def barkAttempt (res : GenResult) (text : String) (dir : Option String) :
    Option (List ℚ) :=
  if barkIsPause dir then
    if strBlank text then some (silence 12000)
    else
      match res with
      | .exn => none
      | .noAudio => some (silence 12000)
      | .audio a => some (silence 12000 ++ a)
  else
    match res with
    | .exn => none
    | .noAudio => some []
    | .audio a => some a

/-- The `try:` block of Bark's loop body.  A blank processed text is
skipped with `continue` before anything else; an exception yields a
warning and `continue`; a `None`/empty result yields a "no audio"
warning; otherwise the buffer is appended and `current_time` advances
by its duration. -/
def barkTry (res : GenResult) (i : ℕ) (sid text ptext preset : String)
    (dir : Option String) (st : BarkState) : BarkState :=
  if strBlank ptext then st
  else
    match barkAttempt res text dir with
    | none =>
      { st with calls := st.calls ++ barkMade text ptext preset dir,
                warnings := st.warnings ++ [Warn.failedSeg i sid] }
    | some a =>
      if a.isEmpty then
        { st with calls := st.calls ++ barkMade text ptext preset dir,
                  warnings := st.warnings ++ [Warn.noAudioSeg i sid] }
      else
        { st with calls := st.calls ++ barkMade text ptext preset dir,
                  allAudio := st.allAudio ++ [a],
                  currentTime := st.currentTime + (a.length : ℚ) / 24000 }

/-- One iteration of Bark's `for i, segment in enumerate(segments)`
loop: read the fields with their defaults, do the boundary bookkeeping
and then the guarded synthesis. -/
def barkStep (gapMs : ℕ) (res : GenResult) (i : ℕ) (seg : BarkSegment)
    (st : BarkState) : BarkState :=
  let sid := seg.sectionId.getD "unknown"
  let preset := seg.speakerPreset.getD "v2/en_speaker_0"
  let text := seg.text.getD ""
  barkTry res i sid text (process_text text seg.direction) preset
    seg.direction (barkBoundary gapMs sid st)

/-- Bark's main loop over the segments, carrying the running index. -/
def barkLoop (gapMs : ℕ) (gen : ℕ → GenResult) :
    List BarkSegment → ℕ → BarkState → BarkState
  | [], _, st => st
  | seg :: rest, i, st =>
    barkLoop gapMs gen rest (i + 1) (barkStep gapMs (gen i) i seg st)

/-- Run Bark's loop on a script from the initial state. -/
def barkRun (script : BarkScript) (gen : ℕ → GenResult) : BarkState :=
  barkLoop (script.gapMs.getD 400) gen script.segments 0 barkInit

/-- "Close the last section": the timestamp list as written, with the
final record appended when a section is open. -/
def barkClose (st : BarkState) : List TsRecord :=
  match st.curSection with
  | none => st.timestamps
  | some sid => st.timestamps ++ [TsRecord.mk sid st.sectionStart st.currentTime]

/-- Bark's `generate`: exit 1 on import failure, run the loop, exit 1
when the `all_audio` list is empty, and otherwise concatenate it.  A
non-empty list can still concatenate to an empty array (only
zero-length `gapMs = 0` gap buffers): there `np.max(np.abs(combined))`
raises an uncaught `ValueError`, so the process exits 1 with no files
written.  Otherwise the normalized WAV and the timestamp index are
written. -/
def barkGenerate (importOk : Bool) (script : BarkScript) (gen : ℕ → GenResult)
    (outputPath : String) : RunOutput :=
  if !importOk then ⟨1, none, none⟩
  else
    let st := barkRun script gen
    let ts := barkClose st
    if st.allAudio.isEmpty then ⟨1, none, none⟩
    else
      let combined := st.allAudio.flatten
      if combined.isEmpty then ⟨1, none, none⟩
      else ⟨0, some (outputPath, normalize combined),
              some (tsPath outputPath, ts)⟩

/-! ### Dia: `generate_dia.py` -/

/-- One entry of the script's `chunks` list.  `none` models an absent
JSON key; the script reads both keys with `chunk["sectionId"]` /
`chunk["text"]`, which raise `KeyError` when absent. -/
structure DiaChunk where
  sectionId : Option String
  text : Option String
deriving DecidableEq, Repr

/-- The parsed Dia script JSON (`gapMs` defaults to 300). -/
structure DiaScript where
  chunks : List DiaChunk
  gapMs : Option ℕ
deriving DecidableEq, Repr

/-- The mutable loop state of Dia's `generate`. -/
structure DiaState where
  allAudio : List (List ℚ)
  timestamps : List TsRecord
  currentTime : ℚ
  warnings : List Warn
deriving DecidableEq, Repr

def diaInit : DiaState := ⟨[], [], 0, []⟩

/-- The `try:` block of Dia's loop body: on a successful non-empty
buffer, append the timestamp record and the audio, advance time, and
append a silence gap whenever this is not the last chunk
(`if i < len(chunks) - 1`); `None`/empty and exceptions warn and skip. -/
def diaStep (gapMs total i : ℕ) (res : GenResult) (sid : String)
    (st : DiaState) : DiaState :=
  match res with
  | .exn => { st with warnings := st.warnings ++ [Warn.failedSec sid] }
  | .noAudio => { st with warnings := st.warnings ++ [Warn.noAudioSec sid] }
  | .audio a =>
    if a.isEmpty then { st with warnings := st.warnings ++ [Warn.noAudioSec sid] }
    else
      let dur := (a.length : ℚ) / 44100
      let st1 := { st with
        timestamps := st.timestamps ++ [TsRecord.mk sid st.currentTime (st.currentTime + dur)],
        allAudio := st.allAudio ++ [a],
        currentTime := st.currentTime + dur }
      if i < total - 1 then
        { st1 with allAudio := st1.allAudio ++ [silence (gapSamples 44100 gapMs)],
                   currentTime := st1.currentTime + (gapMs : ℚ) / 1000 }
      else st1

/-- Dia's main loop.  The key accesses `chunk["sectionId"]` and
`chunk["text"]` happen before the `try:` block, so a missing key
escapes the per-chunk handler: the loop stops with `.error st`
(an uncaught `KeyError`), carrying the state reached so far. -/
def diaLoop (gapMs total : ℕ) (gen : ℕ → GenResult) :
    List DiaChunk → ℕ → DiaState → Except DiaState DiaState
  | [], _, st => .ok st
  | c :: rest, i, st =>
    match c.sectionId, c.text with
    | some sid, some _t =>
      diaLoop gapMs total gen rest (i + 1) (diaStep gapMs total i (gen i) sid st)
    | _, _ => .error st

/-- Dia's `generate`: exit 1 on import failure; an uncaught `KeyError`
aborts with exit code 1 and no files; exit 1 when `all_audio` is
empty; like Bark, `np.max` on an empty concatenation would raise an
uncaught `ValueError` (exit 1, no files) — though in Dia every gap
buffer follows a non-empty audio buffer, so that branch is proved
unreachable below; otherwise the normalized WAV and the timestamp
index are written. -/
def diaGenerate (importOk : Bool) (script : DiaScript) (gen : ℕ → GenResult)
    (outputPath : String) : RunOutput :=
  if !importOk then ⟨1, none, none⟩
  else
    match diaLoop (script.gapMs.getD 300) script.chunks.length gen
        script.chunks 0 diaInit with
    | .error _ => ⟨1, none, none⟩
    | .ok st =>
      if st.allAudio.isEmpty then ⟨1, none, none⟩
      else
        let combined := st.allAudio.flatten
        if combined.isEmpty then ⟨1, none, none⟩
        else ⟨0, some (outputPath, normalize combined),
                some (tsPath outputPath, st.timestamps)⟩

/-! ### Derived notions used to state the claims -/

/-- The section id of each segment, with the script's default. -/
def secIds (segs : List BarkSegment) : List String :=
  segs.map (fun s => s.sectionId.getD "unknown")

/-- Collapse consecutive duplicates, given the id of the current run. -/
def collapseGo (prev : String) : List String → List String
  | [] => []
  | b :: rest => if b = prev then collapseGo prev rest else b :: collapseGo b rest

/-- One entry per contiguous run of equal ids, in order. -/
def collapseRuns : List String → List String
  | [] => []
  | a :: rest => a :: collapseGo a rest

/-- The model call for unit `i` succeeded with a non-empty buffer. -/
def genOk (gen : ℕ → GenResult) (i : ℕ) : Prop :=
  ∃ a, gen i = GenResult.audio a ∧ a ≠ []

/-- Bark unit `i` synthesizes successfully: its (processed) text is
non-blank, so it is not skipped, and the model call succeeds. -/
def barkUnitOk (gen : ℕ → GenResult) (i : ℕ) (seg : BarkSegment) : Prop :=
  strBlank (seg.text.getD "") = false ∧
  strBlank (process_text (seg.text.getD "") seg.direction) = false ∧
  genOk gen i

/-- Both required keys of a Dia chunk are present. -/
def diaChunkOk (c : DiaChunk) : Prop :=
  c.sectionId.isSome = true ∧ c.text.isSome = true

/-- The audio buffer Bark appends for one successful unit: the fixed
500 ms silence is prepended for a pause direction. -/
def barkUnitAudio (seg : BarkSegment) (a : List ℚ) : List ℚ :=
  if barkIsPause seg.direction then silence 12000 ++ a else a

/-- The per-unit `(sectionId, buffer)` pairs of a Bark script under a
given oracle, starting at unit index `i`. -/
def layoutUnits (gen : ℕ → GenResult) : ℕ → List BarkSegment → List (String × List ℚ)
  | _, [] => []
  | i, seg :: rest =>
    (seg.sectionId.getD "unknown", barkUnitAudio seg (genA gen i)) :: layoutUnits gen (i + 1) rest

/-- Audio layout with a gap exactly between two units of different
sections: given the previous section id, emit the gap before a unit
whose id differs from it (and never before the very first unit). -/
def gapLayout (gap : List ℚ) : Option String → List (String × List ℚ) → List (List ℚ)
  | _, [] => []
  | prev, u :: rest =>
    (match prev with
     | none => [u.2]
     | some p => if u.1 = p then [u.2] else [gap, u.2]) ++ gapLayout gap (some u.1) rest

/-- The audio buffers of Dia's chunks under an oracle, from index `i`. -/
def diaAudios (gen : ℕ → GenResult) : ℕ → List DiaChunk → List (List ℚ)
  | _, [] => []
  | i, _ :: rest => genA gen i :: diaAudios gen (i + 1) rest

/-- Audio layout with a gap after every buffer except the last. -/
def diaGapLayout (gap : List ℚ) : List (List ℚ) → List (List ℚ)
  | [] => []
  | [a] => [a]
  | a :: b :: rest => a :: gap :: diaGapLayout gap (b :: rest)

/-- Every record has `startTime ≤ endTime`. -/
def tsStartLe (ts : List TsRecord) : Prop :=
  ∀ r ∈ ts, r.startTime ≤ r.endTime

/-- Consecutive records do not overlap: each `endTime` is at most the
next record's `startTime`. -/
def tsChain (ts : List TsRecord) : Prop :=
  List.Chain' (fun r s => r.endTime ≤ s.startTime) ts

/-- Non-decreasing, non-overlapping time ranges. -/
def tsOrdered (ts : List TsRecord) : Prop :=
  tsStartLe ts ∧ tsChain ts

/-- Loop invariant of Bark's `generate`: the accumulated records are
ordered, the open section started no later than now, and every closed
record ends no later than the open section's start. -/
def BarkInv (st : BarkState) : Prop :=
  tsOrdered st.timestamps ∧
  st.sectionStart ≤ st.currentTime ∧
  ∀ r ∈ st.timestamps.getLast?, r.endTime ≤ st.sectionStart

/-- Loop invariant of Dia's `generate`: the accumulated records are
ordered and the last one ends no later than `current_time`. -/
def DiaInv (st : DiaState) : Prop :=
  tsOrdered st.timestamps ∧
  ∀ r ∈ st.timestamps.getLast?, r.endTime ≤ st.currentTime

/-- Invariant tying Bark's section tracking to the ids processed so
far: with no open section nothing was processed, and with open section
`p`, `p` is the last processed id and the closed records' ids followed
by `p` are exactly the collapsed runs of the processed ids. -/
def SecInv (st : BarkState) (pids : List String) : Prop :=
  match st.curSection with
  | none => pids = [] ∧ st.timestamps = []
  | some p =>
    (∃ a l, pids = a :: l ∧ l.getLastD a = p) ∧
    st.timestamps.map TsRecord.sectionId ++ [p] = collapseRuns pids

/-! ### General helper lemmas -/

lemma silence_length (n : ℕ) : (silence n).length = n := by
  simp [silence]

lemma isEmpty_append_cons (l : List ℚ) (x : ℚ) (r : List ℚ) :
    (l ++ x :: r).isEmpty = false := by
  cases l <;> rfl

lemma le_foldl_max (l : List ℚ) (a : ℚ) : a ≤ l.foldl max a := by
  induction l generalizing a with
  | nil => simp
  | cons x xs ih => exact le_trans (le_max_left a x) (ih (max a x))

lemma mem_le_foldl_max (l : List ℚ) (a x : ℚ) (hx : x ∈ l) : x ≤ l.foldl max a := by
  induction l generalizing a with
  | nil => cases hx
  | cons y ys ih =>
    rcases List.mem_cons.mp hx with h | h
    · subst h
      exact le_trans (le_max_right a x) (le_foldl_max ys (max a x))
    · exact ih (max a y) h

lemma foldl_max_le (l : List ℚ) (a b : ℚ) (hl : ∀ x ∈ l, x ≤ b) (ha : a ≤ b) :
    l.foldl max a ≤ b := by
  induction l generalizing a with
  | nil => exact ha
  | cons y ys ih =>
    exact ih (max a y) (fun x hx => hl x (List.mem_cons_of_mem _ hx))
      (max_le ha (hl y (List.mem_cons_self _ _)))

lemma abs_le_maxAbs (xs : List ℚ) (x : ℚ) (hx : x ∈ xs) : |x| ≤ maxAbs xs :=
  mem_le_foldl_max _ 0 _ (List.mem_map_of_mem _ hx)

lemma maxAbs_of_zeros (xs : List ℚ) (h : ∀ s ∈ xs, s = 0) : maxAbs xs = 0 := by
  refine le_antisymm ?_ (le_foldl_max _ 0)
  refine foldl_max_le _ 0 0 ?_ le_rfl
  intro x hx
  obtain ⟨s, hs, rfl⟩ := List.mem_map.mp hx
  simp [h s hs]

lemma takeWhile_append_of_all (p : Char → Bool) (l1 l2 : List Char)
    (h : ∀ x ∈ l1, p x = true) :
    (l1 ++ l2).takeWhile p = l1 ++ l2.takeWhile p := by
  induction l1 with
  | nil => simp
  | cons c cs ih =>
    have hc : p c = true := h c (List.mem_cons_self _ _)
    simp [List.takeWhile_cons, hc, ih (fun x hx => h x (List.mem_cons_of_mem _ hx))]

lemma takeWhile_eq_self_of_all (p : Char → Bool) (l : List Char)
    (h : ∀ x ∈ l, p x = true) : l.takeWhile p = l := by
  have := takeWhile_append_of_all p l [] h
  simpa using this

lemma basenameL_pathJoinL (d f : List Char)
    (hf : ∀ c ∈ f, (c != '/') = true) : basenameL (pathJoinL d f) = f := by
  unfold pathJoinL basenameL
  have hrev : ∀ c ∈ f.reverse, (c != '/') = true := by
    intro c hc
    exact hf c (List.mem_reverse.mp hc)
  by_cases hd : d = []
  · subst hd
    rw [if_pos rfl]
    rw [takeWhile_eq_self_of_all _ _ hrev, List.reverse_reverse]
  · rw [if_neg hd]
    rcases hl : d.getLast? with _ | c
    · exact absurd (List.getLast?_eq_none_iff.mp hl) hd
    · by_cases hc : c = '/'
      · subst hc
        rw [if_pos rfl, List.reverse_append, takeWhile_append_of_all _ _ _ hrev]
        have hh : d.reverse.head? = some '/' := by
          rw [List.head?_reverse, hl]
        rcases hdr : d.reverse with _ | ⟨x, xs⟩
        · rw [hdr] at hh; cases hh
        · rw [hdr] at hh
          have hx : x = '/' := by
            simpa using hh
          subst hx
          simp
      · rw [if_neg (fun h => hc (Option.some.inj h)), List.reverse_append,
          List.reverse_cons, List.append_assoc, List.singleton_append,
          takeWhile_append_of_all _ _ _ hrev]
        have hslash : List.takeWhile (fun c => c != '/') ('/' :: d.reverse) = [] := by
          simp [List.takeWhile_cons]
        rw [hslash, List.append_nil, List.reverse_reverse]

/-! ### Lemmas about Bark's per-unit processing -/

lemma process_text_pause (text : String) (dir : Option String)
    (h : barkIsPause dir = true) : process_text text dir = text := by
  rcases dir with _ | d
  · cases h
  · simp only [barkIsPause, Bool.and_eq_true, Bool.or_eq_true, bne_iff_ne,
      beq_iff_eq] at h
    obtain ⟨hne, hp⟩ := h
    simp only [process_text]
    rw [if_neg hne]
    rcases hp with hp | hp <;> rw [hp] <;> rfl

lemma barkAttempt_exn (text : String) (dir : Option String)
    (hp : barkIsPause dir = true → strBlank text = false) :
    barkAttempt GenResult.exn text dir = none := by
  unfold barkAttempt
  rcases hb : barkIsPause dir with _ | _
  · simp [hb]
  · simp [hb, hp hb]

lemma barkAttempt_audio (text : String) (dir : Option String) (a : List ℚ)
    (hp : barkIsPause dir = true → strBlank text = false) :
    barkAttempt (GenResult.audio a) text dir
      = some (if barkIsPause dir then silence 12000 ++ a else a) := by
  unfold barkAttempt
  rcases hb : barkIsPause dir with _ | _
  · simp [hb]
  · simp [hb, hp hb]

lemma barkTry_timestamps (res : GenResult) (i : ℕ) (sid text ptext preset : String)
    (dir : Option String) (st : BarkState) :
    (barkTry res i sid text ptext preset dir st).timestamps = st.timestamps := by
  unfold barkTry
  split
  · rfl
  · split
    · rfl
    · split <;> rfl

lemma barkTry_curSection (res : GenResult) (i : ℕ) (sid text ptext preset : String)
    (dir : Option String) (st : BarkState) :
    (barkTry res i sid text ptext preset dir st).curSection = st.curSection := by
  unfold barkTry
  split
  · rfl
  · split
    · rfl
    · split <;> rfl

lemma barkTry_sectionStart (res : GenResult) (i : ℕ) (sid text ptext preset : String)
    (dir : Option String) (st : BarkState) :
    (barkTry res i sid text ptext preset dir st).sectionStart = st.sectionStart := by
  unfold barkTry
  split
  · rfl
  · split
    · rfl
    · split <;> rfl

lemma barkTry_currentTime_le (res : GenResult) (i : ℕ) (sid text ptext preset : String)
    (dir : Option String) (st : BarkState) :
    st.currentTime ≤ (barkTry res i sid text ptext preset dir st).currentTime := by
  unfold barkTry
  split
  · exact le_rfl
  · split
    · exact le_rfl
    · split
      · exact le_rfl
      · exact le_add_of_nonneg_right (by positivity)

lemma barkTry_warnings_mono (res : GenResult) (i : ℕ) (sid text ptext preset : String)
    (dir : Option String) (st : BarkState) (w : Warn) (hw : w ∈ st.warnings) :
    w ∈ (barkTry res i sid text ptext preset dir st).warnings := by
  unfold barkTry
  split
  · exact hw
  · split
    · exact List.mem_append_left _ hw
    · split
      · exact List.mem_append_left _ hw
      · exact hw

lemma barkTry_exn_warn (i : ℕ) (sid text ptext preset : String)
    (dir : Option String) (st : BarkState)
    (hpt : strBlank ptext = false)
    (hp : barkIsPause dir = true → strBlank text = false) :
    Warn.failedSeg i sid ∈ (barkTry GenResult.exn i sid text ptext preset dir st).warnings := by
  unfold barkTry
  rw [barkAttempt_exn text dir hp]
  simp [hpt]

lemma barkBoundary_calls (g : ℕ) (sid : String) (st : BarkState) :
    (barkBoundary g sid st).calls = st.calls := by
  unfold barkBoundary
  split
  · split <;> rfl
  · rfl

lemma barkBoundary_warnings (g : ℕ) (sid : String) (st : BarkState) :
    (barkBoundary g sid st).warnings = st.warnings := by
  unfold barkBoundary
  split
  · split <;> rfl
  · rfl

lemma barkBoundary_curSection (g : ℕ) (sid : String) (st : BarkState) :
    (barkBoundary g sid st).curSection = some sid := by
  unfold barkBoundary
  split
  · split <;> rfl
  · rename_i h
    exact (not_not.mp h).symm

lemma barkStep_eq (g : ℕ) (res : GenResult) (i : ℕ) (seg : BarkSegment)
    (st : BarkState) :
    barkStep g res i seg st
      = barkTry res i (seg.sectionId.getD "unknown") (seg.text.getD "")
          (process_text (seg.text.getD "") seg.direction)
          (seg.speakerPreset.getD "v2/en_speaker_0") seg.direction
          (barkBoundary g (seg.sectionId.getD "unknown") st) := rfl

/-! ### Preservation of the timestamp-ordering invariants -/

lemma barkBoundary_inv (g : ℕ) (sid : String) (st : BarkState)
    (h : BarkInv st) : BarkInv (barkBoundary g sid st) := by
  obtain ⟨⟨hstart, hchain⟩, hsc, hlast⟩ := h
  unfold barkBoundary
  split
  · rcases hcur : st.curSection with _ | prev
    · exact ⟨⟨hstart, hchain⟩, le_rfl, fun r hr => le_trans (hlast r hr) hsc⟩
    · refine ⟨⟨?_, ?_⟩, le_rfl, ?_⟩
      · intro r hr
        rcases List.mem_append.mp hr with h | h
        · exact hstart r h
        · rw [List.mem_singleton] at h
          subst h
          exact hsc
      · refine List.chain'_append.mpr ⟨hchain, List.chain'_singleton _, ?_⟩
        intro x hx y hy
        rw [List.head?_cons, Option.mem_some_iff] at hy
        subst hy
        exact hlast x hx
      · intro r hr
        rw [List.getLast?_concat, Option.mem_some_iff] at hr
        subst hr
        exact le_add_of_nonneg_right (by positivity)
  · exact ⟨⟨hstart, hchain⟩, hsc, hlast⟩

lemma barkTry_inv (res : GenResult) (i : ℕ) (sid text ptext preset : String)
    (dir : Option String) (st : BarkState) (h : BarkInv st) :
    BarkInv (barkTry res i sid text ptext preset dir st) := by
  obtain ⟨hord, hsc, hlast⟩ := h
  refine ⟨?_, ?_, ?_⟩
  · rw [tsOrdered] at hord ⊢
    rw [tsStartLe, tsChain, barkTry_timestamps]
    exact hord
  · rw [barkTry_sectionStart]
    exact le_trans hsc (barkTry_currentTime_le res i sid text ptext preset dir st)
  · intro r hr
    rw [barkTry_timestamps] at hr
    rw [barkTry_sectionStart]
    exact hlast r hr

lemma barkStep_inv (g : ℕ) (res : GenResult) (i : ℕ) (seg : BarkSegment)
    (st : BarkState) (h : BarkInv st) : BarkInv (barkStep g res i seg st) := by
  rw [barkStep_eq]
  exact barkTry_inv _ _ _ _ _ _ _ _ (barkBoundary_inv _ _ _ h)

lemma barkLoop_inv (g : ℕ) (gen : ℕ → GenResult) :
    ∀ (segs : List BarkSegment) (i : ℕ) (st : BarkState),
      BarkInv st → BarkInv (barkLoop g gen segs i st)
  | [], _, _, h => h
  | seg :: rest, i, st, h =>
    barkLoop_inv g gen rest (i + 1) _ (barkStep_inv g (gen i) i seg st h)

lemma barkInit_inv : BarkInv barkInit := by
  refine ⟨⟨?_, ?_⟩, le_rfl, ?_⟩ <;> simp [barkInit, tsStartLe, tsChain]

lemma barkClose_ordered (st : BarkState) (h : BarkInv st) :
    tsOrdered (barkClose st) := by
  obtain ⟨⟨hstart, hchain⟩, hsc, hlast⟩ := h
  unfold barkClose
  rcases st.curSection with _ | sid
  · exact ⟨hstart, hchain⟩
  · constructor
    · intro r hr
      rcases List.mem_append.mp hr with h | h
      · exact hstart r h
      · rw [List.mem_singleton] at h
        subst h
        exact hsc
    · refine List.chain'_append.mpr ⟨hchain, List.chain'_singleton _, ?_⟩
      intro x hx y hy
      rw [List.head?_cons, Option.mem_some_iff] at hy
      subst hy
      exact hlast x hx

lemma diaStep_exn (g tot i : ℕ) (sid : String) (st : DiaState) :
    diaStep g tot i GenResult.exn sid st
      = { st with warnings := st.warnings ++ [Warn.failedSec sid] } := rfl

lemma diaStep_noAudio (g tot i : ℕ) (sid : String) (st : DiaState) :
    diaStep g tot i GenResult.noAudio sid st
      = { st with warnings := st.warnings ++ [Warn.noAudioSec sid] } := rfl

lemma diaStep_audio (g tot i : ℕ) (sid : String) (a : List ℚ) (st : DiaState) :
    diaStep g tot i (GenResult.audio a) sid st
      = if a.isEmpty then { st with warnings := st.warnings ++ [Warn.noAudioSec sid] }
        else
          let st1 : DiaState :=
            { st with
              timestamps := st.timestamps ++
                [TsRecord.mk sid st.currentTime (st.currentTime + (a.length : ℚ) / 44100)],
              allAudio := st.allAudio ++ [a],
              currentTime := st.currentTime + (a.length : ℚ) / 44100 }
          if i < tot - 1 then
            { st1 with allAudio := st1.allAudio ++ [silence (gapSamples 44100 g)],
                       currentTime := st1.currentTime + (g : ℚ) / 1000 }
          else st1 := rfl

lemma diaStep_inv (g tot i : ℕ) (res : GenResult) (sid : String)
    (st : DiaState) (h : DiaInv st) : DiaInv (diaStep g tot i res sid st) := by
  obtain ⟨⟨hstart, hchain⟩, hlast⟩ := h
  rcases res with _ | _ | a
  · rw [diaStep_exn]
    exact ⟨⟨hstart, hchain⟩, hlast⟩
  · rw [diaStep_noAudio]
    exact ⟨⟨hstart, hchain⟩, hlast⟩
  · rw [diaStep_audio]
    split
    · exact ⟨⟨hstart, hchain⟩, hlast⟩
    · have hrec : DiaInv
          { st with
            timestamps := st.timestamps ++
              [TsRecord.mk sid st.currentTime (st.currentTime + (a.length : ℚ) / 44100)],
            allAudio := st.allAudio ++ [a],
            currentTime := st.currentTime + (a.length : ℚ) / 44100 } := by
        refine ⟨⟨?_, ?_⟩, ?_⟩
        · intro r hr
          rcases List.mem_append.mp hr with h | h
          · exact hstart r h
          · rw [List.mem_singleton] at h
            subst h
            exact le_add_of_nonneg_right (by positivity)
        · refine List.chain'_append.mpr ⟨hchain, List.chain'_singleton _, ?_⟩
          intro x hx y hy
          rw [List.head?_cons, Option.mem_some_iff] at hy
          subst hy
          exact hlast x hx
        · intro r hr
          rw [List.getLast?_concat, Option.mem_some_iff] at hr
          subst hr
          exact le_rfl
      obtain ⟨⟨hstart2, hchain2⟩, hlast2⟩ := hrec
      split
      · refine ⟨⟨hstart2, hchain2⟩, ?_⟩
        intro r hr
        exact le_trans (hlast2 r hr) (le_add_of_nonneg_right (by positivity))
      · exact ⟨⟨hstart2, hchain2⟩, hlast2⟩

lemma diaLoop_inv (g tot : ℕ) (gen : ℕ → GenResult) :
    ∀ (chunks : List DiaChunk) (i : ℕ) (st st2 : DiaState),
      DiaInv st →
      (diaLoop g tot gen chunks i st = .ok st2 ∨
        diaLoop g tot gen chunks i st = .error st2) →
      DiaInv st2 := by
  intro chunks
  induction chunks with
  | nil =>
    intro i st st2 h hr
    rcases hr with hr | hr
    · cases hr
      exact h
    · cases hr
  | cons c rest ih =>
    intro i st st2 h hr
    rcases hsid : c.sectionId with _ | sid <;> rcases htext : c.text with _ | t <;>
      rw [diaLoop, hsid, htext] at hr
    · rcases hr with hr | hr
      · cases hr
      · cases hr
        exact h
    · rcases hr with hr | hr
      · cases hr
      · cases hr
        exact h
    · rcases hr with hr | hr
      · cases hr
      · cases hr
        exact h
    · exact ih (i + 1) _ st2 (diaStep_inv g tot i (gen i) sid st h) hr

lemma diaInit_inv : DiaInv diaInit := by
  refine ⟨⟨?_, ?_⟩, ?_⟩ <;> simp [diaInit, tsStartLe, tsChain]

/-! ### One record per run of section ids (Bark) -/

lemma getLastD_concat (a b : String) (l : List String) :
    (l ++ [b]).getLastD a = b := by
  rw [List.getLastD_eq_getLast?, List.getLast?_concat]
  rfl

lemma collapseGo_append (prev b : String) (l : List String) :
    collapseGo prev (l ++ [b])
      = collapseGo prev l ++ (if b = l.getLastD prev then [] else [b]) := by
  induction l generalizing prev with
  | nil => simp [collapseGo]
  | cons a l ih =>
    by_cases hap : a = prev
    · subst hap
      simp only [List.cons_append, collapseGo, if_pos rfl, List.getLastD_cons]
      exact ih a
    · simp only [List.cons_append, collapseGo, if_neg hap, List.getLastD_cons]
      exact congrArg (fun x => a :: x) (ih a)

lemma SecInv_of_eq (st st2 : BarkState) (pids : List String)
    (hcur : st2.curSection = st.curSection)
    (hts : st2.timestamps = st.timestamps) (h : SecInv st pids) :
    SecInv st2 pids := by
  unfold SecInv at h ⊢
  rw [hcur, hts]
  exact h

lemma barkBoundary_sec (g : ℕ) (sid : String) (st : BarkState)
    (pids : List String) (h : SecInv st pids) :
    SecInv (barkBoundary g sid st) (pids ++ [sid]) := by
  unfold barkBoundary
  rcases hcur : st.curSection with _ | p
  · rw [if_pos (Option.some_ne_none sid)]
    unfold SecInv at h ⊢
    rw [hcur] at h
    obtain ⟨h1, h2⟩ := h
    subst h1
    refine ⟨⟨sid, [], rfl, rfl⟩, ?_⟩
    simp [h2, collapseRuns, collapseGo]
  · by_cases hsp : sid = p
    · rw [if_neg (by simp [hsp] : ¬ some sid ≠ some p)]
      unfold SecInv at h ⊢
      rw [hcur] at h ⊢
      obtain ⟨⟨a, l, hpids, hlast⟩, hmap⟩ := h
      subst hpids
      refine ⟨⟨a, l ++ [sid], by simp, ?_⟩, ?_⟩
      · rw [getLastD_concat]
        exact hsp
      · rw [List.cons_append]
        simp only [collapseRuns] at hmap ⊢
        rw [collapseGo_append, hlast, if_pos hsp, List.append_nil]
        exact hmap
    · rw [if_pos (by simp [hsp] : some sid ≠ some p)]
      unfold SecInv at h ⊢
      rw [hcur] at h
      obtain ⟨⟨a, l, hpids, hlast⟩, hmap⟩ := h
      subst hpids
      refine ⟨⟨a, l ++ [sid], by simp, by rw [getLastD_concat]⟩, ?_⟩
      rw [List.cons_append, List.map_append]
      simp only [collapseRuns] at hmap ⊢
      rw [collapseGo_append, hlast, if_neg hsp]
      simp only [List.map_cons, List.map_nil]
      rw [hmap, List.cons_append]

lemma barkStep_sec (g : ℕ) (res : GenResult) (i : ℕ) (seg : BarkSegment)
    (st : BarkState) (pids : List String) (h : SecInv st pids) :
    SecInv (barkStep g res i seg st) (pids ++ [seg.sectionId.getD "unknown"]) := by
  rw [barkStep_eq]
  exact SecInv_of_eq _ _ _
    (barkTry_curSection _ _ _ _ _ _ _ _)
    (barkTry_timestamps _ _ _ _ _ _ _ _)
    (barkBoundary_sec g _ st pids h)

lemma barkLoop_sec (g : ℕ) (gen : ℕ → GenResult) :
    ∀ (segs : List BarkSegment) (i : ℕ) (st : BarkState) (pids : List String),
      SecInv st pids → SecInv (barkLoop g gen segs i st) (pids ++ secIds segs)
  | [], i, st, pids, h => by
    simpa [secIds] using h
  | seg :: rest, i, st, pids, h => by
    have h3 := barkLoop_sec g gen rest (i + 1) _ _
      (barkStep_sec g (gen i) i seg st pids h)
    rw [List.append_assoc, List.singleton_append] at h3
    simpa [secIds] using h3

lemma barkInit_sec : SecInv barkInit [] := ⟨rfl, rfl⟩

lemma barkClose_sections (st : BarkState) (pids : List String)
    (h : SecInv st pids) :
    (barkClose st).map TsRecord.sectionId = collapseRuns pids := by
  unfold barkClose
  unfold SecInv at h
  rcases hcur : st.curSection with _ | p
  · rw [hcur] at h
    obtain ⟨h1, h2⟩ := h
    subst h1
    simp [h2, collapseRuns]
  · rw [hcur] at h
    obtain ⟨_, hmap⟩ := h
    rw [List.map_append]
    simpa using hmap

lemma bark_sections (script : BarkScript) (gen : ℕ → GenResult) :
    (barkClose (barkRun script gen)).map TsRecord.sectionId
      = collapseRuns (secIds script.segments) := by
  have h := barkLoop_sec (script.gapMs.getD 400) gen script.segments 0 barkInit []
    barkInit_sec
  rw [List.nil_append] at h
  exact barkClose_sections _ _ h

/-! ### Warnings and loop completion -/

lemma barkLoop_nil (g : ℕ) (gen : ℕ → GenResult) (i : ℕ) (st : BarkState) :
    barkLoop g gen [] i st = st := rfl

lemma barkLoop_cons (g : ℕ) (gen : ℕ → GenResult) (seg : BarkSegment)
    (rest : List BarkSegment) (i : ℕ) (st : BarkState) :
    barkLoop g gen (seg :: rest) i st
      = barkLoop g gen rest (i + 1) (barkStep g (gen i) i seg st) := rfl

lemma barkStep_warnings_mono (g : ℕ) (res : GenResult) (i : ℕ)
    (seg : BarkSegment) (st : BarkState) (w : Warn) (hw : w ∈ st.warnings) :
    w ∈ (barkStep g res i seg st).warnings := by
  rw [barkStep_eq]
  apply barkTry_warnings_mono
  rw [barkBoundary_warnings]
  exact hw

lemma barkLoop_warnings_mono (g : ℕ) (gen : ℕ → GenResult) :
    ∀ (segs : List BarkSegment) (i : ℕ) (st : BarkState) (w : Warn),
      w ∈ st.warnings → w ∈ (barkLoop g gen segs i st).warnings
  | [], _, _, _, hw => hw
  | seg :: rest, i, st, w, hw =>
    barkLoop_warnings_mono g gen rest (i + 1) _ w
      (barkStep_warnings_mono g (gen i) i seg st w hw)

lemma barkStep_exn_warn (g : ℕ) (i : ℕ) (seg : BarkSegment) (st : BarkState)
    (hpt : strBlank (process_text (seg.text.getD "") seg.direction) = false) :
    Warn.failedSeg i (seg.sectionId.getD "unknown")
      ∈ (barkStep g GenResult.exn i seg st).warnings := by
  rw [barkStep_eq]
  apply barkTry_exn_warn _ _ _ _ _ _ _ hpt
  intro hb
  rw [← process_text_pause (seg.text.getD "") seg.direction hb]
  exact hpt

lemma barkLoop_exn_warn (g : ℕ) (gen : ℕ → GenResult) :
    ∀ (segs : List BarkSegment) (i0 j : ℕ) (seg : BarkSegment) (st : BarkState),
      segs[j]? = some seg → gen (i0 + j) = GenResult.exn →
      strBlank (process_text (seg.text.getD "") seg.direction) = false →
      Warn.failedSeg (i0 + j) (seg.sectionId.getD "unknown")
        ∈ (barkLoop g gen segs i0 st).warnings := by
  intro segs
  induction segs with
  | nil =>
    intro i0 j seg st hj
    simp at hj
  | cons s rest ih =>
    intro i0 j seg st hj hgen hpt
    cases j with
    | zero =>
      rw [List.getElem?_cons_zero, Option.some_inj] at hj
      subst hj
      rw [Nat.add_zero] at hgen ⊢
      rw [barkLoop_cons]
      apply barkLoop_warnings_mono
      rw [hgen]
      exact barkStep_exn_warn g i0 _ st hpt
    | succ k =>
      rw [List.getElem?_cons_succ] at hj
      have harith : i0 + 1 + k = i0 + (k + 1) := by omega
      rw [barkLoop_cons]
      have := ih (i0 + 1) k seg (barkStep g (gen i0) i0 s st) hj
        (by rw [harith]; exact hgen) hpt
      rw [harith] at this
      exact this

lemma diaStep_warnings_mono (g tot i : ℕ) (res : GenResult) (sid : String)
    (st : DiaState) (w : Warn) (hw : w ∈ st.warnings) :
    w ∈ (diaStep g tot i res sid st).warnings := by
  rcases res with _ | _ | a
  · rw [diaStep_exn]
    exact List.mem_append_left _ hw
  · rw [diaStep_noAudio]
    exact List.mem_append_left _ hw
  · rw [diaStep_audio]
    split
    · exact List.mem_append_left _ hw
    · split
      · exact hw
      · exact hw

lemma diaLoop_nil (g tot : ℕ) (gen : ℕ → GenResult) (i : ℕ) (st : DiaState) :
    diaLoop g tot gen [] i st = .ok st := rfl

lemma diaLoop_cons_ok (g tot : ℕ) (gen : ℕ → GenResult) (c : DiaChunk)
    (rest : List DiaChunk) (i : ℕ) (st : DiaState) (sid t : String)
    (hsid : c.sectionId = some sid) (htext : c.text = some t) :
    diaLoop g tot gen (c :: rest) i st
      = diaLoop g tot gen rest (i + 1) (diaStep g tot i (gen i) sid st) := by
  rw [diaLoop, hsid, htext]

lemma diaLoop_warnings_mono (g tot : ℕ) (gen : ℕ → GenResult) :
    ∀ (chunks : List DiaChunk) (i : ℕ) (st st2 : DiaState) (w : Warn),
      w ∈ st.warnings →
      (diaLoop g tot gen chunks i st = .ok st2 ∨
        diaLoop g tot gen chunks i st = .error st2) →
      w ∈ st2.warnings := by
  intro chunks
  induction chunks with
  | nil =>
    intro i st st2 w hw hr
    rcases hr with hr | hr
    · cases hr
      exact hw
    · cases hr
  | cons c rest ih =>
    intro i st st2 w hw hr
    rcases hsid : c.sectionId with _ | sid <;> rcases htext : c.text with _ | t <;>
      rw [diaLoop, hsid, htext] at hr
    · rcases hr with hr | hr
      · cases hr
      · cases hr
        exact hw
    · rcases hr with hr | hr
      · cases hr
      · cases hr
        exact hw
    · rcases hr with hr | hr
      · cases hr
      · cases hr
        exact hw
    · exact ih (i + 1) _ st2 w
        (diaStep_warnings_mono g tot i (gen i) sid st w hw) hr

lemma diaLoop_ok_of_keys (g tot : ℕ) (gen : ℕ → GenResult) :
    ∀ (chunks : List DiaChunk) (i : ℕ) (st : DiaState),
      (∀ c ∈ chunks, diaChunkOk c) →
      ∃ st2, diaLoop g tot gen chunks i st = .ok st2 := by
  intro chunks
  induction chunks with
  | nil =>
    intro i st _
    exact ⟨st, rfl⟩
  | cons c rest ih =>
    intro i st hk
    have hc := hk c (List.mem_cons_self _ _)
    obtain ⟨h1, h2⟩ := hc
    rcases hsid : c.sectionId with _ | sid
    · rw [hsid] at h1
      cases h1
    · rcases htext : c.text with _ | t
      · rw [htext] at h2
        cases h2
      · obtain ⟨st2, hst2⟩ := ih (i + 1) (diaStep g tot i (gen i) sid st)
          (fun c hc => hk c (List.mem_cons_of_mem _ hc))
        exact ⟨st2, by rw [diaLoop_cons_ok g tot gen c rest i st sid t hsid htext, hst2]⟩

lemma diaLoop_exn_warn (g tot : ℕ) (gen : ℕ → GenResult) :
    ∀ (chunks : List DiaChunk) (i0 j : ℕ) (c : DiaChunk) (sid : String)
      (st st2 : DiaState),
      (∀ c2 ∈ chunks, diaChunkOk c2) →
      chunks[j]? = some c → c.sectionId = some sid →
      gen (i0 + j) = GenResult.exn →
      diaLoop g tot gen chunks i0 st = .ok st2 →
      Warn.failedSec sid ∈ st2.warnings := by
  intro chunks
  induction chunks with
  | nil =>
    intro i0 j c sid st st2 _ hj
    simp at hj
  | cons c0 rest ih =>
    intro i0 j c sid st st2 hk hj hsid hgen hloop
    have hc0 := hk c0 (List.mem_cons_self _ _)
    obtain ⟨h1, h2⟩ := hc0
    rcases hsid0 : c0.sectionId with _ | sid0
    · rw [hsid0] at h1
      cases h1
    · rcases htext0 : c0.text with _ | t0
      · rw [htext0] at h2
        cases h2
      · rw [diaLoop_cons_ok g tot gen c0 rest i0 st sid0 t0 hsid0 htext0] at hloop
        cases j with
        | zero =>
          rw [List.getElem?_cons_zero, Option.some_inj] at hj
          subst hj
          rw [Nat.add_zero] at hgen
          rw [hsid0, Option.some_inj] at hsid
          subst hsid
          refine diaLoop_warnings_mono g tot gen rest (i0 + 1) _ st2 _ ?_ (Or.inl hloop)
          rw [hgen, diaStep_exn]
          exact List.mem_append_right _ (List.mem_singleton_self _)
        | succ k =>
          rw [List.getElem?_cons_succ] at hj
          have harith : i0 + 1 + k = i0 + (k + 1) := by omega
          exact ih (i0 + 1) k c sid _ st2
            (fun c2 hc2 => hk c2 (List.mem_cons_of_mem _ hc2)) hj hsid
            (by rw [harith]; exact hgen) hloop

lemma diaLoop_ts_of_success (g tot : ℕ) (gen : ℕ → GenResult) :
    ∀ (chunks : List DiaChunk) (i : ℕ) (st : DiaState),
      (∀ c ∈ chunks, diaChunkOk c) → (∀ k, genOk gen k) →
      ∃ st2, diaLoop g tot gen chunks i st = .ok st2 ∧
        st2.timestamps.map TsRecord.sectionId
          = st.timestamps.map TsRecord.sectionId
              ++ chunks.map (fun c => c.sectionId.getD "") := by
  intro chunks
  induction chunks with
  | nil =>
    intro i st _ _
    exact ⟨st, rfl, by simp⟩
  | cons c rest ih =>
    intro i st hk hgen
    have hc := hk c (List.mem_cons_self _ _)
    obtain ⟨h1, h2⟩ := hc
    rcases hsid : c.sectionId with _ | sid
    · rw [hsid] at h1
      cases h1
    · rcases htext : c.text with _ | t
      · rw [htext] at h2
        cases h2
      · obtain ⟨a, ha, hne⟩ := hgen i
        have hstep : (diaStep g tot i (gen i) sid st).timestamps
            = st.timestamps ++
              [TsRecord.mk sid st.currentTime (st.currentTime + (a.length : ℚ) / 44100)] := by
          rw [ha, diaStep_audio]
          rw [if_neg (by simp [hne])]
          split <;> rfl
        obtain ⟨st2, hst2, hmap⟩ := ih (i + 1) (diaStep g tot i (gen i) sid st)
          (fun c hc => hk c (List.mem_cons_of_mem _ hc)) hgen
        refine ⟨st2, by rw [diaLoop_cons_ok g tot gen c rest i st sid t hsid htext, hst2], ?_⟩
        rw [hmap, hstep, List.map_append]
        simp [hsid]

/-! ### Audio layout: where silence gaps are inserted -/

lemma barkBoundary_allAudio (g : ℕ) (sid : String) (st : BarkState) :
    (barkBoundary g sid st).allAudio
      = st.allAudio ++
          (match st.curSection with
           | none => []
           | some p => if sid = p then [] else [silence (gapSamples 24000 g)]) := by
  unfold barkBoundary
  rcases hcur : st.curSection with _ | p
  · rw [if_pos (Option.some_ne_none sid)]
    simp
  · by_cases hsp : sid = p
    · rw [if_neg (by simp [hsp] : ¬ some sid ≠ some p)]
      simp [hsp]
    · rw [if_pos (by simp [hsp] : some sid ≠ some p)]
      simp [hsp]

lemma barkTry_success (i : ℕ) (sid text ptext preset : String)
    (dir : Option String) (st : BarkState) (a : List ℚ)
    (hpt : strBlank ptext = false) (hne : a ≠ [])
    (hp : barkIsPause dir = true → strBlank text = false) :
    barkTry (GenResult.audio a) i sid text ptext preset dir st
      = { st with
          calls := st.calls ++ barkMade text ptext preset dir,
          allAudio := st.allAudio ++ [if barkIsPause dir then silence 12000 ++ a else a],
          currentTime := st.currentTime +
            (((if barkIsPause dir then silence 12000 ++ a else a).length : ℚ)) / 24000 } := by
  have hie : (if barkIsPause dir then silence 12000 ++ a else a).isEmpty = false := by
    rcases a with _ | ⟨x, t⟩
    · cases hne rfl
    · split
      · exact isEmpty_append_cons _ _ _
      · rfl
  unfold barkTry
  rw [if_neg (by simp [hpt]), barkAttempt_audio text dir a hp]
  simp [hie]

lemma layoutUnits_cons (gen : ℕ → GenResult) (i : ℕ) (seg : BarkSegment)
    (rest : List BarkSegment) :
    layoutUnits gen i (seg :: rest)
      = (seg.sectionId.getD "unknown", barkUnitAudio seg (genA gen i))
          :: layoutUnits gen (i + 1) rest := rfl

lemma gapLayout_cons (gap : List ℚ) (prev : Option String)
    (u : String × List ℚ) (us : List (String × List ℚ)) :
    gapLayout gap prev (u :: us)
      = (match prev with
         | none => [u.2]
         | some p => if u.1 = p then [u.2] else [gap, u.2])
          ++ gapLayout gap (some u.1) us := rfl

lemma barkLoop_layout (g : ℕ) (gen : ℕ → GenResult) :
    ∀ (segs : List BarkSegment) (i : ℕ) (st : BarkState),
      (∀ j seg, segs[j]? = some seg → barkUnitOk gen (i + j) seg) →
      (barkLoop g gen segs i st).allAudio
        = st.allAudio ++
            gapLayout (silence (gapSamples 24000 g)) st.curSection
              (layoutUnits gen i segs) := by
  intro segs
  induction segs with
  | nil =>
    intro i st _
    simp [barkLoop_nil, layoutUnits, gapLayout]
  | cons seg rest ih =>
    intro i st hok
    have h0 := hok 0 seg (by simp)
    rw [Nat.add_zero] at h0
    obtain ⟨htext, hpt, a, ha, hne⟩ := h0
    have hgenA : genA gen i = a := by
      simp [genA, ha]
    have hp : barkIsPause seg.direction = true → strBlank (seg.text.getD "") = false :=
      fun _ => htext
    have hcur2 : (barkStep g (gen i) i seg st).curSection
        = some (seg.sectionId.getD "unknown") := by
      rw [barkStep_eq, barkTry_curSection, barkBoundary_curSection]
    have haudio : (barkStep g (gen i) i seg st).allAudio
        = st.allAudio ++
            (match st.curSection with
             | none => []
             | some p => if seg.sectionId.getD "unknown" = p then []
                 else [silence (gapSamples 24000 g)]) ++
            [barkUnitAudio seg a] := by
      rw [barkStep_eq, ha,
        barkTry_success i _ _ _ _ seg.direction _ a hpt hne hp]
      rw [barkBoundary_allAudio]
      rfl
    have hshift : ∀ j s, rest[j]? = some s → barkUnitOk gen (i + 1 + j) s := by
      intro j s hjs
      have := hok (j + 1) s (by simpa using hjs)
      rwa [show i + (j + 1) = i + 1 + j by omega] at this
    rw [barkLoop_cons, ih (i + 1) _ hshift, hcur2, haudio,
      layoutUnits_cons, gapLayout_cons, hgenA]
    rcases st.curSection with _ | p
    · simp
    · by_cases hsp : seg.sectionId.getD "unknown" = p
      · simp [hsp]
      · simp [hsp]

lemma diaAudios_cons (gen : ℕ → GenResult) (i : ℕ) (c : DiaChunk)
    (rest : List DiaChunk) :
    diaAudios gen i (c :: rest) = genA gen i :: diaAudios gen (i + 1) rest := rfl

lemma diaGapLayout_cons2 (gap a b : List ℚ) (r : List (List ℚ)) :
    diaGapLayout gap (a :: b :: r) = a :: gap :: diaGapLayout gap (b :: r) := rfl

lemma diaLoop_layout (g tot : ℕ) (gen : ℕ → GenResult) :
    ∀ (chunks : List DiaChunk) (i : ℕ) (st : DiaState),
      i + chunks.length = tot →
      (∀ c ∈ chunks, diaChunkOk c) → (∀ k, genOk gen k) →
      ∃ st2, diaLoop g tot gen chunks i st = .ok st2 ∧
        st2.allAudio = st.allAudio
          ++ diaGapLayout (silence (gapSamples 44100 g)) (diaAudios gen i chunks) := by
  intro chunks
  induction chunks with
  | nil =>
    intro i st _ _ _
    exact ⟨st, rfl, by simp [diaAudios, diaGapLayout]⟩
  | cons c rest ih =>
    intro i st htot hk hgen
    obtain ⟨h1, h2⟩ := hk c (List.mem_cons_self _ _)
    rcases hsid : c.sectionId with _ | sid
    · rw [hsid] at h1
      cases h1
    · rcases htext : c.text with _ | t
      · rw [htext] at h2
        cases h2
      · obtain ⟨a, ha, hne⟩ := hgen i
        have hie : a.isEmpty = false := by
          rcases a with _ | ⟨x, r⟩
          · cases hne rfl
          · rfl
        have hgA : genA gen i = a := by
          simp [genA, ha]
        rcases rest with _ | ⟨c2, rest2⟩
        · have hlt : ¬ i < tot - 1 := by
            simp at htot
            omega
          have hstep : diaStep g tot i (gen i) sid st
              = { st with
                  timestamps := st.timestamps ++
                    [TsRecord.mk sid st.currentTime (st.currentTime + (a.length : ℚ) / 44100)],
                  allAudio := st.allAudio ++ [a],
                  currentTime := st.currentTime + (a.length : ℚ) / 44100 } := by
            rw [ha, diaStep_audio]
            simp [hie, hlt]
          refine ⟨_, by rw [diaLoop_cons_ok g tot gen c [] i st sid t hsid htext,
            diaLoop_nil], ?_⟩
          rw [hstep]
          simp [diaAudios, diaGapLayout, hgA]
        · have hlt : i < tot - 1 := by
            simp at htot
            omega
          have hstep : diaStep g tot i (gen i) sid st
              = { st with
                  timestamps := st.timestamps ++
                    [TsRecord.mk sid st.currentTime (st.currentTime + (a.length : ℚ) / 44100)],
                  allAudio := st.allAudio ++ [a] ++ [silence (gapSamples 44100 g)],
                  currentTime := st.currentTime + (a.length : ℚ) / 44100 + (g : ℚ) / 1000 } := by
            rw [ha, diaStep_audio]
            simp [hie, hlt]
          obtain ⟨st2, hst2, haud⟩ := ih (i + 1) (diaStep g tot i (gen i) sid st)
            (by simp at htot ⊢; omega)
            (fun c3 hc3 => hk c3 (List.mem_cons_of_mem _ hc3))
            hgen
          refine ⟨st2, by rw [diaLoop_cons_ok g tot gen c (c2 :: rest2) i st sid t hsid htext,
            hst2], ?_⟩
          rw [haud, hstep, diaAudios_cons gen i c (c2 :: rest2), hgA,
            diaAudios_cons gen (i + 1) c2 rest2, diaGapLayout_cons2]
          simp [List.append_assoc]

lemma diaLoop_error_of_missing (g tot : ℕ) (gen : ℕ → GenResult) :
    ∀ (chunks : List DiaChunk) (i : ℕ) (st : DiaState),
      (∃ c ∈ chunks, c.sectionId = none ∨ c.text = none) →
      ∃ st2, diaLoop g tot gen chunks i st = .error st2 := by
  intro chunks
  induction chunks with
  | nil =>
    intro i st h
    obtain ⟨c, hc, _⟩ := h
    cases hc
  | cons c0 rest ih =>
    intro i st h
    rcases hsid : c0.sectionId with _ | sid
    · refine ⟨st, ?_⟩
      rcases htext : c0.text with _ | t <;> rw [diaLoop, hsid, htext]
    · rcases htext : c0.text with _ | t
      · exact ⟨st, by rw [diaLoop, hsid, htext]⟩
      · obtain ⟨c, hc, hmiss⟩ := h
        rcases List.mem_cons.mp hc with rfl | hcr
        · rw [hsid, htext] at hmiss
          simp at hmiss
        · obtain ⟨st2, hst2⟩ := ih (i + 1) (diaStep g tot i (gen i) sid st)
            ⟨c, hcr, hmiss⟩
          exact ⟨st2, by rw [diaLoop_cons_ok g tot gen c0 rest i st sid t hsid htext, hst2]⟩

lemma flatten_ne_nil_of_mem (l : List (List ℚ)) (b : List ℚ)
    (hb : b ∈ l) (hne : b ≠ []) : l.flatten ≠ [] := by
  induction l with
  | nil => cases hb
  | cons x xs ih =>
    rw [List.flatten_cons]
    intro hf
    rw [List.append_eq_nil] at hf
    rcases List.mem_cons.mp hb with rfl | hmem
    · exact hne hf.1
    · exact ih hmem hf.2

/-- In Dia, audio buffers are appended before any gap buffer, so the
accumulated list is empty or contains a non-empty buffer: one step. -/
lemma diaStep_nonnil (g tot i : ℕ) (res : GenResult) (sid : String)
    (st : DiaState)
    (h : st.allAudio = [] ∨ ∃ b ∈ st.allAudio, b ≠ []) :
    (diaStep g tot i res sid st).allAudio = [] ∨
      ∃ b ∈ (diaStep g tot i res sid st).allAudio, b ≠ [] := by
  rcases res with _ | _ | a
  · rw [diaStep_exn]
    exact h
  · rw [diaStep_noAudio]
    exact h
  · rw [diaStep_audio]
    split
    · exact h
    · rename_i hae
      have hne : a ≠ [] := by
        intro ha
        subst ha
        exact hae rfl
      right
      split
      · exact ⟨a, List.mem_append_left _
          (List.mem_append_right _ (List.mem_singleton_self _)), hne⟩
      · exact ⟨a, List.mem_append_right _ (List.mem_singleton_self _), hne⟩

/-- The non-empty-buffer invariant holds at every exit of Dia's loop. -/
lemma diaLoop_nonnil (g tot : ℕ) (gen : ℕ → GenResult) :
    ∀ (chunks : List DiaChunk) (i : ℕ) (st st2 : DiaState),
      (st.allAudio = [] ∨ ∃ b ∈ st.allAudio, b ≠ []) →
      (diaLoop g tot gen chunks i st = .ok st2 ∨
        diaLoop g tot gen chunks i st = .error st2) →
      (st2.allAudio = [] ∨ ∃ b ∈ st2.allAudio, b ≠ []) := by
  intro chunks
  induction chunks with
  | nil =>
    intro i st st2 h hr
    rcases hr with hr | hr
    · cases hr
      exact h
    · cases hr
  | cons c rest ih =>
    intro i st st2 h hr
    rcases hsid : c.sectionId with _ | sid <;> rcases htext : c.text with _ | t <;>
      rw [diaLoop, hsid, htext] at hr
    · rcases hr with hr | hr
      · cases hr
      · cases hr
        exact h
    · rcases hr with hr | hr
      · cases hr
      · cases hr
        exact h
    · rcases hr with hr | hr
      · cases hr
      · cases hr
        exact h
    · exact ih (i + 1) _ st2 (diaStep_nonnil g tot i (gen i) sid st h) hr

/-- For every Dia state reachable from the initial one, a non-empty
accumulated list has a non-empty concatenation — `np.max` on the empty
concatenation is unreachable in Dia. -/
lemma diaLoop_flatten (g tot : ℕ) (gen : ℕ → GenResult) (chunks : List DiaChunk)
    (st2 : DiaState)
    (hr : diaLoop g tot gen chunks 0 diaInit = .ok st2 ∨
      diaLoop g tot gen chunks 0 diaInit = .error st2)
    (hne : st2.allAudio ≠ []) : st2.allAudio.flatten ≠ [] := by
  rcases diaLoop_nonnil g tot gen chunks 0 diaInit st2 (Or.inl rfl) hr with h | h
  · exact absurd h hne
  · obtain ⟨b, hb, hbne⟩ := h
    exact flatten_ne_nil_of_mem _ b hb hbne

/-! ### The claims -/

/-- C7: in the Bark script, `process_text` maps a recognized non-pause
direction (looked up case-insensitively in `EMOTION_MAP`) to its fixed
Bark token prepended to the text with a single space, and for every
direction not in the emotion map it returns the text unchanged (the
unrecognized direction is dropped silently). -/
theorem claim_C7 (text d : String) :
    (∀ tok, EMOTION_MAP (pyLower d) = some tok → tok ≠ "" →
      process_text text (some d) = tok ++ " " ++ text) ∧
    (EMOTION_MAP (pyLower d) = none → process_text text (some d) = text) := by
  constructor
  · intro tok hmap hne
    by_cases hd : d = ""
    · subst hd
      rw [show pyLower "" = "" from rfl] at hmap
      rw [show EMOTION_MAP "" = none from rfl] at hmap
      cases hmap
    · simp only [process_text]
      rw [if_neg hd, hmap]
      simp [hne]
  · intro hmap
    by_cases hd : d = ""
    · subst hd
      simp [process_text]
    · simp only [process_text]
      rw [if_neg hd, hmap]

/-- Witness for C7 at concrete inputs: the direction "Laughs" gets the
token "[laughter]" prepended, and the unrecognized direction "shrugs"
leaves the text unchanged. -/
theorem claim_C7_witness :
    process_text "hi" (some "Laughs") = "[laughter] hi" ∧
    process_text "hi" (some "shrugs") = "hi" := by
  constructor
  · exact ((claim_C7 "hi" "Laughs").1 "[laughter]" (by decide) (by decide)).trans
      (by decide)
  · exact (claim_C7 "hi" "shrugs").2 (by decide)

/-- C9: the peak-normalization division happens only when the maximum
absolute sample is strictly positive — an all-zero buffer is returned
unscaled, with no division by zero — and whenever the division does
happen every resulting sample has absolute value at most 0.95; the WAV
contents written by both scripts are exactly `normalize` of the
concatenated audio. -/
theorem claim_C9 (xs : List ℚ) :
    ((∀ s ∈ xs, s = 0) → normalize xs = xs) ∧
    (0 < maxAbs xs → ∀ s ∈ normalize xs, |s| ≤ 95 / 100) ∧
    (∀ (iOk : Bool) (bs : BarkScript) (bgen : ℕ → GenResult) (bout p : String)
      (w : List ℚ), (barkGenerate iOk bs bgen bout).wavWritten = some (p, w) →
      w = normalize ((barkRun bs bgen).allAudio.flatten)) ∧
    (∀ (iOk : Bool) (ds : DiaScript) (dgen : ℕ → GenResult) (dout p : String)
      (w : List ℚ) (st : DiaState),
      diaLoop (ds.gapMs.getD 300) ds.chunks.length dgen ds.chunks 0 diaInit = .ok st →
      (diaGenerate iOk ds dgen dout).wavWritten = some (p, w) →
      w = normalize st.allAudio.flatten) := by
  refine ⟨?_, ?_, ?_, ?_⟩
  · intro h
    simp only [normalize]
    rw [maxAbs_of_zeros xs h]
    simp
  · intro hm s hs
    simp only [normalize] at hs
    rw [if_pos hm] at hs
    obtain ⟨x, hx, rfl⟩ := List.mem_map.mp hs
    have hxm : |x| ≤ maxAbs xs := abs_le_maxAbs xs x hx
    have h1 : |x / maxAbs xs * (95 / 100)| = |x| / maxAbs xs * (95 / 100) := by
      rw [abs_mul, abs_div, abs_of_pos hm,
        abs_of_pos (by norm_num : (0 : ℚ) < 95 / 100)]
    rw [h1]
    calc |x| / maxAbs xs * (95 / 100)
        ≤ 1 * (95 / 100) :=
          mul_le_mul_of_nonneg_right ((div_le_one hm).mpr hxm) (by norm_num)
      _ = 95 / 100 := one_mul _
  · intro iOk bs bgen bout p w hw
    rcases iOk with _ | _
    · simp [barkGenerate] at hw
    · simp only [barkGenerate, Bool.not_true] at hw
      by_cases he : (barkRun bs bgen).allAudio.isEmpty
      · simp [he] at hw
      · by_cases hf : (barkRun bs bgen).allAudio.flatten.isEmpty <;>
          simp [he, hf] at hw
        exact hw.2.symm
  · intro iOk ds dgen dout p w st hloop hw
    rcases iOk with _ | _
    · simp [diaGenerate] at hw
    · simp only [diaGenerate, Bool.not_true] at hw
      rw [hloop] at hw
      by_cases he : st.allAudio.isEmpty
      · simp [he] at hw
      · by_cases hf : st.allAudio.flatten.isEmpty <;> simp [he, hf] at hw
        exact hw.2.symm

/-- Witness for C9 at concrete inputs: the all-zero buffer `[0]` is
written unscaled, and the normalized sample of `[1/2]` is bounded. -/
theorem claim_C9_witness :
    normalize [(0 : ℚ)] = [0] ∧ |(19 : ℚ) / 20| ≤ 95 / 100 := by
  have hmax : maxAbs [(1 : ℚ) / 2] = 1 / 2 := by
    norm_num [maxAbs, max_def]
  have hnorm : normalize [(1 : ℚ) / 2] = [19 / 20] := by
    norm_num [normalize, hmax]
  constructor
  · exact (claim_C9 [0]).1 (by simp)
  · exact (claim_C9 [(1 : ℚ) / 2]).2.1 (by rw [hmax]; norm_num) (19 / 20)
      (by rw [hnorm]; exact List.mem_singleton_self _)

/-- C10: in the Dia script a chunk lacking "sectionId" or "text" raises
`KeyError` outside the per-chunk handler, aborting the whole run with
exit code 1 and no output files, whatever the synthesis oracle would
have produced; in the Bark script missing fields fall back to defaults
(sectionId "unknown", empty text, speaker preset "v2/en_speaker_0",
gapMs 400) and processing continues identically. -/
theorem claim_C10 :
    (∀ (ds : DiaScript) (dgen : ℕ → GenResult) (dout : String),
      (∃ c ∈ ds.chunks, c.sectionId = none ∨ c.text = none) →
      diaGenerate true ds dgen dout = RunOutput.mk 1 none none) ∧
    (∀ (g : ℕ) (res : GenResult) (i : ℕ) (st : BarkState),
      barkStep g res i (BarkSegment.mk none none none none) st
        = barkStep g res i
            (BarkSegment.mk (some "unknown") (some "v2/en_speaker_0") (some "") none) st) ∧
    (∀ (segs : List BarkSegment) (bgen : ℕ → GenResult) (bout : String),
      barkGenerate true (BarkScript.mk segs none) bgen bout
        = barkGenerate true (BarkScript.mk segs (some 400)) bgen bout) := by
  refine ⟨?_, ?_, ?_⟩
  · intro ds dgen dout h
    obtain ⟨st2, hst2⟩ := diaLoop_error_of_missing (ds.gapMs.getD 300)
      ds.chunks.length dgen ds.chunks 0 diaInit h
    simp [diaGenerate, hst2]
  · intro g res i st
    rfl
  · intro segs bgen bout
    rfl

/-- Witness for C10: a Dia chunk with a missing "text" key aborts the
run with exit code 1 and no files, even though the oracle succeeds. -/
theorem claim_C10_witness :
    diaGenerate true (DiaScript.mk [DiaChunk.mk (some "a") none] (some 0))
        (fun _ => GenResult.audio [1]) "o.wav" = RunOutput.mk 1 none none :=
  claim_C10.1 _ _ _ ⟨DiaChunk.mk (some "a") none, by simp, Or.inr rfl⟩

/-- C5 (amended): the exit code is always 0 or 1; it is 1 exactly when
the import fails, when the concatenation of the accumulated audio list
is empty — the list itself is empty (explicit `sys.exit(1)`), or, in
Bark with gapMs 0, it holds only zero-length gap buffers so `np.max`
raises an uncaught ValueError — or, in Dia, when a chunk missing a key
raises an uncaught KeyError; and 0 in every other case. -/
theorem claim_C5 (iOk : Bool) (bs : BarkScript) (bgen : ℕ → GenResult)
    (bout : String) (ds : DiaScript) (dgen : ℕ → GenResult) (dout : String) :
    (((barkGenerate iOk bs bgen bout).exitCode = 0 ∨
        (barkGenerate iOk bs bgen bout).exitCode = 1) ∧
      ((barkGenerate iOk bs bgen bout).exitCode = 1 ↔
        (iOk = false ∨ (barkRun bs bgen).allAudio.flatten = []))) ∧
    (((diaGenerate iOk ds dgen dout).exitCode = 0 ∨
        (diaGenerate iOk ds dgen dout).exitCode = 1) ∧
      ((diaGenerate iOk ds dgen dout).exitCode = 1 ↔
        (iOk = false ∨
          (∃ st, diaLoop (ds.gapMs.getD 300) ds.chunks.length dgen ds.chunks 0 diaInit
            = .error st) ∨
          (∃ st, diaLoop (ds.gapMs.getD 300) ds.chunks.length dgen ds.chunks 0 diaInit
            = .ok st ∧ st.allAudio = [])))) := by
  rcases iOk with _ | _
  · refine ⟨⟨Or.inr rfl, ?_⟩, ⟨Or.inr rfl, ?_⟩⟩
    · simp [barkGenerate]
    · simp [diaGenerate]
  · constructor
    · by_cases he : (barkRun bs bgen).allAudio = []
      · have hf : (barkRun bs bgen).allAudio.flatten = [] := by
          rw [he]
          rfl
        exact ⟨Or.inr (by simp [barkGenerate, List.isEmpty_iff, he]),
          by simp [barkGenerate, List.isEmpty_iff, he, hf]⟩
      · by_cases hf : (barkRun bs bgen).allAudio.flatten = []
        · exact ⟨Or.inr (by simp [barkGenerate, List.isEmpty_iff, he, hf]),
            by simp [barkGenerate, List.isEmpty_iff, he, hf]⟩
        · exact ⟨Or.inl (by simp [barkGenerate, List.isEmpty_iff, he, hf]),
            by simp [barkGenerate, List.isEmpty_iff, he, hf]⟩
    · rcases hdl : diaLoop (ds.gapMs.getD 300) ds.chunks.length dgen ds.chunks 0 diaInit
        with st | st
      · refine ⟨Or.inr (by simp [diaGenerate, hdl]), ?_, ?_⟩
        · intro _
          exact Or.inr (Or.inl ⟨st, rfl⟩)
        · intro _
          simp [diaGenerate, hdl]
      · by_cases he : st.allAudio = []
        · refine ⟨Or.inr (by simp [diaGenerate, hdl, he]), ?_, ?_⟩
          · intro _
            exact Or.inr (Or.inr ⟨st, rfl, he⟩)
          · intro _
            simp [diaGenerate, hdl, he]
        · have hflat : st.allAudio.flatten ≠ [] :=
            diaLoop_flatten (ds.gapMs.getD 300) ds.chunks.length dgen ds.chunks st
              (Or.inl hdl) he
          refine ⟨Or.inl
            (by simp [diaGenerate, hdl, List.isEmpty_iff, he, hflat]), ?_, ?_⟩
          · intro h1
            have h0 : (diaGenerate true ds dgen dout).exitCode = 0 := by
              simp [diaGenerate, hdl, List.isEmpty_iff, he, hflat]
            rw [h0] at h1
            cases h1
          · intro hr
            exfalso
            rcases hr with hr | hr | hr
            · cases hr
            · obtain ⟨st2, hst2⟩ := hr
              cases hst2
            · obtain ⟨st2, hst2, he2⟩ := hr
              cases hst2
              exact he he2

/-- Counterexample to C5 as stated: with the dependency present and
audio already produced for the first chunk, a second Dia chunk lacking
the "text" key makes the run exit 1 with no files written — an exit-1
case that is neither a missing dependency nor zero produced audio. -/
theorem claim_C5_cex :
    diaGenerate true (DiaScript.mk [DiaChunk.mk (some "a") (some "x"),
        DiaChunk.mk (some "b") none] (some 0))
        (fun _ => GenResult.audio [1]) "o.wav" = RunOutput.mk 1 none none ∧
    diaLoop 0 2 (fun _ => GenResult.audio [1])
        [DiaChunk.mk (some "a") (some "x"), DiaChunk.mk (some "b") none] 0 diaInit
      = Except.error (DiaState.mk [[1], silence 0]
          [TsRecord.mk "a" 0 (1 / 44100)] (1 / 44100) []) := by
  constructor
  · norm_num [diaGenerate, diaLoop, diaStep, diaInit, gapSamples]
  · norm_num [diaLoop, diaStep, diaInit, gapSamples]

/-- C6, evaluated on the failing input: a Bark segment with direction
"pause" and blank text is skipped by the blank-processed-text check
before the pause branch ever runs, so no 500 ms silence is emitted and
a script consisting only of that segment aborts with no audio at all —
contradicting the claim that "only the silence is emitted"; for
non-blank text the 500 ms silence is indeed placed before the
synthesized audio and counted in the duration. -/
theorem claim_C6 :
    barkGenerate true
        (BarkScript.mk [BarkSegment.mk (some "s") none (some "") (some "pause")] (some 0))
        (fun _ => GenResult.audio [1]) "o.wav" = RunOutput.mk 1 none none ∧
    (barkRun
        (BarkScript.mk [BarkSegment.mk (some "s") none (some "hi") (some "pause")] (some 0))
        (fun _ => GenResult.audio [1])).allAudio = [silence 12000 ++ [1]] ∧
    (barkRun
        (BarkScript.mk [BarkSegment.mk (some "s") none (some "hi") (some "pause")] (some 0))
        (fun _ => GenResult.audio [1])).currentTime = 12001 / 24000 := by
  have h1 : strBlank (process_text "" (some "pause")) = true := by decide
  have h2 : process_text "hi" (some "pause") = "hi" := by decide
  have h3 : strBlank "hi" = false := by decide
  have h4 : barkIsPause (some "pause") = true := by decide
  have h5 : (silence 12000 ++ [1]).isEmpty = false := isEmpty_append_cons _ _ _
  refine ⟨?_, ?_, ?_⟩
  · simp [barkGenerate, barkRun, barkLoop, barkStep, barkTry, barkAttempt, barkMade,
      barkBoundary, barkInit, h1]
  · simp [barkRun, barkLoop, barkStep, barkTry, barkAttempt, barkMade,
      barkBoundary, barkInit, h2, h3, h4, h5]
  · simp [barkRun, barkLoop, barkStep, barkTry, barkAttempt, barkMade,
      barkBoundary, barkInit, h2, h3, h4, h5]
    norm_num [silence_length]

/-- C8: when either script writes the timestamp file, its path is
`os.path.join(os.path.dirname(output), "timestamps.json")` — a file
named exactly `timestamps.json` in the output path's directory —
whatever the output file's name or extension. -/
theorem claim_C8 (iOk : Bool) (bs : BarkScript) (bgen : ℕ → GenResult)
    (ds : DiaScript) (dgen : ℕ → GenResult) (bout dout p q : String)
    (precs qrecs : List TsRecord) :
    ((barkGenerate iOk bs bgen bout).tsWritten = some (p, precs) →
      p.toList = pathJoinL (dirnameL bout.toList) "timestamps.json".toList ∧
      basenameL p.toList = "timestamps.json".toList) ∧
    ((diaGenerate iOk ds dgen dout).tsWritten = some (q, qrecs) →
      q.toList = pathJoinL (dirnameL dout.toList) "timestamps.json".toList ∧
      basenameL q.toList = "timestamps.json".toList) := by
  have hbase : ∀ out : String,
      basenameL (tsPath out).toList = "timestamps.json".toList := by
    intro out
    exact basenameL_pathJoinL _ _ (by decide)
  constructor
  · intro hw
    have hp : p = tsPath bout := by
      rcases iOk with _ | _
      · simp [barkGenerate] at hw
      · by_cases he : (barkRun bs bgen).allAudio.isEmpty
        · simp [barkGenerate, he] at hw
        · by_cases hf : (barkRun bs bgen).allAudio.flatten.isEmpty <;>
            simp [barkGenerate, he, hf] at hw
          exact hw.1.symm
    subst hp
    exact ⟨rfl, hbase bout⟩
  · intro hw
    have hq : q = tsPath dout := by
      rcases iOk with _ | _
      · simp [diaGenerate] at hw
      · rcases hdl : diaLoop (ds.gapMs.getD 300) ds.chunks.length dgen ds.chunks 0
            diaInit with st | st
        · simp [diaGenerate, hdl] at hw
        · by_cases he : st.allAudio.isEmpty
          · simp [diaGenerate, hdl, he] at hw
          · by_cases hf : st.allAudio.flatten.isEmpty <;>
              simp [diaGenerate, hdl, he, hf] at hw
            exact hw.1.symm
    subst hq
    exact ⟨rfl, hbase dout⟩

/-- Witness for C8 at concrete successful runs of both scripts, with
output paths `a/b.wav` and `d/e.mp3`: the written timestamp paths are
`a/timestamps.json` and `d/timestamps.json`. -/
theorem claim_C8_witness :
    "a/timestamps.json".toList
        = pathJoinL (dirnameL "a/b.wav".toList) "timestamps.json".toList ∧
    basenameL "a/timestamps.json".toList = "timestamps.json".toList ∧
    "d/timestamps.json".toList
        = pathJoinL (dirnameL "d/e.mp3".toList) "timestamps.json".toList ∧
    basenameL "d/timestamps.json".toList = "timestamps.json".toList := by
  have hp1 : tsPath "a/b.wav" = "a/timestamps.json" := by decide
  have h1 : process_text "x" none = "x" := by decide
  have h2 : strBlank "x" = false := by decide
  have hb : (barkGenerate true
      (BarkScript.mk [BarkSegment.mk (some "s") none (some "x") none] (some 0))
      (fun _ => GenResult.audio [1]) "a/b.wav").tsWritten
      = some ("a/timestamps.json", [TsRecord.mk "s" 0 (1 / 24000)]) := by
    simp [barkGenerate, barkRun, barkLoop, barkStep, barkTry, barkAttempt, barkMade,
      barkBoundary, barkInit, barkClose, barkIsPause, h1, h2, hp1]
  have hp2 : tsPath "d/e.mp3" = "d/timestamps.json" := by decide
  have hd : (diaGenerate true
      (DiaScript.mk [DiaChunk.mk (some "a") (some "x")] (some 0))
      (fun _ => GenResult.audio [1]) "d/e.mp3").tsWritten
      = some ("d/timestamps.json", [TsRecord.mk "a" 0 (1 / 44100)]) := by
    norm_num [diaGenerate, diaLoop, diaStep, diaInit, gapSamples, hp2]
  have hfull := claim_C8 true
    (BarkScript.mk [BarkSegment.mk (some "s") none (some "x") none] (some 0))
    (fun _ => GenResult.audio [1])
    (DiaScript.mk [DiaChunk.mk (some "a") (some "x")] (some 0))
    (fun _ => GenResult.audio [1]) "a/b.wav" "d/e.mp3"
    "a/timestamps.json" "d/timestamps.json"
    [TsRecord.mk "s" 0 (1 / 24000)] [TsRecord.mk "a" 0 (1 / 44100)]
  obtain ⟨ha1, ha2⟩ := hfull.1 hb
  obtain ⟨hd1, hd2⟩ := hfull.2 hd
  exact ⟨ha1, ha2, hd1, hd2⟩

/-- C1 (amended): the Bark script's written timestamp index has exactly
one record per contiguous run of consecutive segments sharing a section
id — its records' section ids are the collapsed runs of the segments'
ids, whatever the synthesis outcomes; the Dia script instead writes
exactly one record per successfully synthesized chunk, in chunk order,
even when consecutive chunks share a section id. -/
theorem claim_C1 (bs : BarkScript) (bgen : ℕ → GenResult)
    (ds : DiaScript) (dgen : ℕ → GenResult) :
    ((barkClose (barkRun bs bgen)).map TsRecord.sectionId
        = collapseRuns (secIds bs.segments)) ∧
    ((∀ c ∈ ds.chunks, diaChunkOk c) → (∀ k, genOk dgen k) →
      ∃ st, diaLoop (ds.gapMs.getD 300) ds.chunks.length dgen ds.chunks 0 diaInit
          = .ok st ∧
        st.timestamps.map TsRecord.sectionId
          = ds.chunks.map (fun c => c.sectionId.getD "")) := by
  constructor
  · exact bark_sections bs bgen
  · intro hk hgen
    obtain ⟨st, hst, hmap⟩ := diaLoop_ts_of_success (ds.gapMs.getD 300)
      ds.chunks.length dgen ds.chunks 0 diaInit hk hgen
    exact ⟨st, hst, by simpa [diaInit] using hmap⟩

/-- Counterexample to C1 as stated: a Dia script with two consecutive
chunks in the same section "a", both synthesizing successfully, yields
two timestamp records for that single contiguous run, where the claim
demands exactly one (`collapseRuns` of the ids is the singleton). -/
theorem claim_C1_cex :
    (diaGenerate true (DiaScript.mk [DiaChunk.mk (some "a") (some "x"),
        DiaChunk.mk (some "a") (some "y")] (some 0))
        (fun _ => GenResult.audio [1]) "out.wav").tsWritten
      = some ("timestamps.json",
          [TsRecord.mk "a" 0 (1 / 44100), TsRecord.mk "a" (1 / 44100) (1 / 22050)]) ∧
    collapseRuns ["a", "a"] = ["a"] := by
  constructor
  · have hp : tsPath "out.wav" = "timestamps.json" := by decide
    norm_num [diaGenerate, diaLoop, diaStep, diaInit, gapSamples, hp]
  · rfl

/-- Witness for C1's Dia conjunct at a concrete all-success input. -/
theorem claim_C1_witness :
    ∃ st, diaLoop 300 1 (fun _ => GenResult.audio [1])
        [DiaChunk.mk (some "a") (some "x")] 0 diaInit = .ok st ∧
      st.timestamps.map TsRecord.sectionId = ["a"] := by
  have h := (claim_C1 (BarkScript.mk [] none) (fun _ => GenResult.audio [1])
      (DiaScript.mk [DiaChunk.mk (some "a") (some "x")] none)
      (fun _ => GenResult.audio [1])).2
    (by
      intro c hc
      rw [List.mem_singleton] at hc
      subst hc
      exact ⟨rfl, rfl⟩)
    (fun k => ⟨[1], rfl, by simp⟩)
  simpa using h

/-- C2: the timestamp list written by either script is ordered — every
record has startTime ≤ endTime and each record ends no later than the
next one starts — and the underlying invariants are preserved by every
loop iteration of either script. -/
theorem claim_C2 (bs : BarkScript) (bgen : ℕ → GenResult)
    (ds : DiaScript) (dgen : ℕ → GenResult) (st2 : DiaState)
    (g tot i j : ℕ) (res dres : GenResult) (seg : BarkSegment) (sid : String)
    (bst : BarkState) (dst : DiaState) :
    tsOrdered (barkClose (barkRun bs bgen)) ∧
    (diaLoop (ds.gapMs.getD 300) ds.chunks.length dgen ds.chunks 0 diaInit = .ok st2 →
      tsOrdered st2.timestamps) ∧
    (BarkInv bst → BarkInv (barkStep g res i seg bst)) ∧
    (DiaInv dst → DiaInv (diaStep g tot j dres sid dst)) := by
  refine ⟨?_, ?_, ?_, ?_⟩
  · exact barkClose_ordered _
      (barkLoop_inv (bs.gapMs.getD 400) bgen bs.segments 0 barkInit barkInit_inv)
  · intro h
    exact (diaLoop_inv (ds.gapMs.getD 300) ds.chunks.length dgen ds.chunks 0
      diaInit st2 diaInit_inv (Or.inl h)).1
  · exact barkStep_inv g res i seg bst
  · exact diaStep_inv g tot j dres sid dst

/-- Witness for C2 at concrete inputs: the trivial Dia run's records
are ordered, and one concrete step of each script preserves its
invariant. -/
theorem claim_C2_witness :
    tsOrdered diaInit.timestamps ∧
    BarkInv (barkStep 0 GenResult.exn 0
      (BarkSegment.mk (some "s") none (some "x") none) barkInit) ∧
    DiaInv (diaStep 0 1 0 GenResult.exn "s" diaInit) := by
  have h := claim_C2 (BarkScript.mk [] none) (fun _ => GenResult.exn)
    (DiaScript.mk [] none) (fun _ => GenResult.exn) diaInit 0 1 0 0
    GenResult.exn GenResult.exn (BarkSegment.mk (some "s") none (some "x") none) "s"
    barkInit diaInit
  exact ⟨h.2.1 rfl, h.2.2.1 barkInit_inv, h.2.2.2 diaInit_inv⟩

/-- C3 (amended): in the Bark script, when every unit synthesizes
successfully, the accumulated audio is exactly the per-unit buffers
with one gapMs silence buffer inserted precisely between two units of
different sections and never between same-section units; in the Dia
script a gap silence is instead appended after every chunk except the
last, regardless of section ids. -/
theorem claim_C3 (bs : BarkScript) (bgen : ℕ → GenResult)
    (ds : DiaScript) (dgen : ℕ → GenResult) :
    ((∀ j seg, bs.segments[j]? = some seg → barkUnitOk bgen j seg) →
      (barkRun bs bgen).allAudio
        = gapLayout (silence (gapSamples 24000 (bs.gapMs.getD 400))) none
            (layoutUnits bgen 0 bs.segments)) ∧
    ((∀ c ∈ ds.chunks, diaChunkOk c) → (∀ k, genOk dgen k) →
      ∃ st, diaLoop (ds.gapMs.getD 300) ds.chunks.length dgen ds.chunks 0 diaInit
          = .ok st ∧
        st.allAudio = diaGapLayout (silence (gapSamples 44100 (ds.gapMs.getD 300)))
          (diaAudios dgen 0 ds.chunks)) := by
  constructor
  · intro hok
    have h := barkLoop_layout (bs.gapMs.getD 400) bgen bs.segments 0 barkInit
      (by
        intro j seg hj
        rw [Nat.zero_add]
        exact hok j seg hj)
    simpa [barkRun, barkInit] using h
  · intro hk hgen
    obtain ⟨st, hst, haud⟩ := diaLoop_layout (ds.gapMs.getD 300) ds.chunks.length
      dgen ds.chunks 0 diaInit (by simp) hk hgen
    exact ⟨st, hst, by simpa [diaInit] using haud⟩

/-- Counterexample to C3 as stated: two consecutive Dia chunks of the
same section "a", both successful, get the script's gap silence — 44
zero samples for gapMs = 1 — inserted between their audio buffers. -/
theorem claim_C3_cex :
    diaLoop 1 2 (fun _ => GenResult.audio [1])
        [DiaChunk.mk (some "a") (some "x"), DiaChunk.mk (some "a") (some "y")] 0 diaInit
      = Except.ok (DiaState.mk [[1], silence 44, [1]]
          [TsRecord.mk "a" 0 (1 / 44100), TsRecord.mk "a" (451 / 441000) (461 / 441000)]
          (461 / 441000) []) ∧
    silence 44 = List.replicate 44 0 ∧
    gapSamples 44100 1 = 44 := by
  refine ⟨?_, rfl, rfl⟩
  norm_num [diaLoop, diaStep, diaInit, gapSamples]

/-- Witness for C3 at concrete all-success inputs for both scripts. -/
theorem claim_C3_witness :
    (barkRun (BarkScript.mk [BarkSegment.mk (some "s") none (some "x") none] none)
        (fun _ => GenResult.audio [1])).allAudio
      = gapLayout (silence (gapSamples 24000 400)) none
          (layoutUnits (fun _ => GenResult.audio [1]) 0
            [BarkSegment.mk (some "s") none (some "x") none]) ∧
    ∃ st, diaLoop 300 1 (fun _ => GenResult.audio [1])
        [DiaChunk.mk (some "a") (some "x")] 0 diaInit = .ok st ∧
      st.allAudio = diaGapLayout (silence (gapSamples 44100 300))
        (diaAudios (fun _ => GenResult.audio [1]) 0 [DiaChunk.mk (some "a") (some "x")]) := by
  have h := claim_C3
    (BarkScript.mk [BarkSegment.mk (some "s") none (some "x") none] none)
    (fun _ => GenResult.audio [1])
    (DiaScript.mk [DiaChunk.mk (some "a") (some "x")] none)
    (fun _ => GenResult.audio [1])
  refine ⟨h.1 ?_, h.2 ?_ ?_⟩
  · intro j seg hj
    cases j with
    | zero =>
      rw [List.getElem?_cons_zero, Option.some_inj] at hj
      subst hj
      exact ⟨by decide, by decide, [1], rfl, by simp⟩
    | succ k =>
      simp at hj
  · intro c hc
    rw [List.mem_singleton] at hc
    subst hc
    exact ⟨rfl, rfl⟩
  · intro k
    exact ⟨[1], rfl, by simp⟩

/-- C4 (amended): given the dependency imports, a unit whose synthesis
raises an exception gets a stderr warning and is skipped — the loop
always runs to completion (for Dia, provided every chunk has its keys)
— and the run exits 1 with no output files exactly when the
concatenation of the accumulated audio list is empty once all units
are processed: either the list itself is empty (the explicit
`sys.exit(1)`) or, in Bark with gapMs 0, it holds only zero-length gap
buffers and `np.max` of the empty concatenation raises an uncaught
ValueError.  Otherwise the run exits 0 with both files written.  In
Dia every gap follows non-empty audio, so its abort condition is
exactly an empty list. -/
theorem claim_C4 (bs : BarkScript) (bgen : ℕ → GenResult) (bout : String)
    (ds : DiaScript) (dgen : ℕ → GenResult) (dout : String) :
    ((barkGenerate true bs bgen bout).exitCode = 1 ↔
      (barkRun bs bgen).allAudio.flatten = []) ∧
    ((barkRun bs bgen).allAudio.flatten = [] →
      barkGenerate true bs bgen bout = RunOutput.mk 1 none none) ∧
    ((barkRun bs bgen).allAudio.flatten ≠ [] →
      (barkGenerate true bs bgen bout).exitCode = 0 ∧
      (barkGenerate true bs bgen bout).wavWritten ≠ none ∧
      (barkGenerate true bs bgen bout).tsWritten ≠ none) ∧
    (∀ i seg, bs.segments[i]? = some seg → bgen i = GenResult.exn →
      strBlank (process_text (seg.text.getD "") seg.direction) = false →
      Warn.failedSeg i (seg.sectionId.getD "unknown") ∈ (barkRun bs bgen).warnings) ∧
    ((∀ c ∈ ds.chunks, diaChunkOk c) →
      ∃ st, diaLoop (ds.gapMs.getD 300) ds.chunks.length dgen ds.chunks 0 diaInit
          = .ok st ∧
        ((diaGenerate true ds dgen dout).exitCode = 1 ↔ st.allAudio = []) ∧
        (st.allAudio = [] → diaGenerate true ds dgen dout = RunOutput.mk 1 none none) ∧
        (∀ i c sid, ds.chunks[i]? = some c → c.sectionId = some sid →
          dgen i = GenResult.exn → Warn.failedSec sid ∈ st.warnings)) := by
  refine ⟨?_, ?_, ?_, ?_, ?_⟩
  · by_cases he : (barkRun bs bgen).allAudio = []
    · have hf : (barkRun bs bgen).allAudio.flatten = [] := by
        rw [he]
        rfl
      simp [barkGenerate, List.isEmpty_iff, he, hf]
    · by_cases hf : (barkRun bs bgen).allAudio.flatten = [] <;>
        simp [barkGenerate, List.isEmpty_iff, he, hf]
  · intro hf
    by_cases he : (barkRun bs bgen).allAudio = [] <;>
      simp [barkGenerate, List.isEmpty_iff, he, hf]
  · intro hf
    have he : (barkRun bs bgen).allAudio ≠ [] := by
      intro h
      exact hf (by rw [h]; rfl)
    refine ⟨?_, ?_, ?_⟩ <;> simp [barkGenerate, List.isEmpty_iff, he, hf]
  · intro i seg hj hg hpt
    have h := barkLoop_exn_warn (bs.gapMs.getD 400) bgen bs.segments 0 i seg barkInit
      hj (by rw [Nat.zero_add]; exact hg) hpt
    rw [Nat.zero_add] at h
    exact h
  · intro hk
    obtain ⟨st, hst⟩ := diaLoop_ok_of_keys (ds.gapMs.getD 300) ds.chunks.length dgen
      ds.chunks 0 diaInit hk
    refine ⟨st, hst, ?_, ?_, ?_⟩
    · by_cases he : st.allAudio = []
      · simp [diaGenerate, hst, List.isEmpty_iff, he]
      · have hflat : st.allAudio.flatten ≠ [] :=
          diaLoop_flatten (ds.gapMs.getD 300) ds.chunks.length dgen ds.chunks st
            (Or.inl hst) he
        simp [diaGenerate, hst, List.isEmpty_iff, he, hflat]
    · intro he
      simp [diaGenerate, hst, List.isEmpty_iff, he]
    · intro i c sid hj hsid hg
      exact diaLoop_exn_warn (ds.gapMs.getD 300) ds.chunks.length dgen ds.chunks 0 i
        c sid diaInit st hk hj hsid (by rw [Nat.zero_add]; exact hg) hst

/-- Counterexample to C4 as stated: a Bark script with gapMs 0 and two
sections whose units all fail accumulates exactly the zero-length
section-boundary gap buffer, so the `all_audio` list is non-empty, yet
the run exits 1 with no files written (`np.max` of the empty
concatenation raises an uncaught ValueError) — refuting "the run
aborts exactly when the accumulated audio list is empty". -/
theorem claim_C4_cex :
    barkGenerate true (BarkScript.mk [BarkSegment.mk (some "a") none (some "x") none,
        BarkSegment.mk (some "b") none (some "y") none] (some 0))
        (fun _ => GenResult.exn) "o.wav" = RunOutput.mk 1 none none ∧
    (barkRun (BarkScript.mk [BarkSegment.mk (some "a") none (some "x") none,
        BarkSegment.mk (some "b") none (some "y") none] (some 0))
        (fun _ => GenResult.exn)).allAudio = [silence 0] ∧
    ([silence 0] : List (List ℚ)) ≠ [] := by
  have h1 : process_text "x" none = "x" := by decide
  have h1b : process_text "y" none = "y" := by decide
  have h2 : strBlank "x" = false := by decide
  have h2b : strBlank "y" = false := by decide
  refine ⟨?_, ?_, by simp⟩
  · simp [barkGenerate, barkRun, barkLoop, barkStep, barkTry, barkAttempt, barkMade,
      barkBoundary, barkInit, barkIsPause, gapSamples, silence, h1, h1b, h2, h2b]
  · simp [barkRun, barkLoop, barkStep, barkTry, barkAttempt, barkMade,
      barkBoundary, barkInit, barkIsPause, gapSamples, h1, h1b, h2, h2b]

/-- Witness for C4 at concrete inputs: a Bark unit and a Dia chunk
whose synthesis raises are warned about, and the Bark run with no
produced audio exits 1 with no files. -/
theorem claim_C4_witness :
    Warn.failedSeg 0 "s" ∈ (barkRun (BarkScript.mk
        [BarkSegment.mk (some "s") none (some "x") none] none)
        (fun _ => GenResult.exn)).warnings ∧
    barkGenerate true (BarkScript.mk [BarkSegment.mk (some "s") none (some "x") none] none)
        (fun _ => GenResult.exn) "o.wav" = RunOutput.mk 1 none none ∧
    ∃ st, diaLoop 300 1 (fun _ => GenResult.exn)
        [DiaChunk.mk (some "a") (some "x")] 0 diaInit = .ok st ∧
      Warn.failedSec "a" ∈ st.warnings := by
  have h := claim_C4
    (BarkScript.mk [BarkSegment.mk (some "s") none (some "x") none] none)
    (fun _ => GenResult.exn) "o.wav"
    (DiaScript.mk [DiaChunk.mk (some "a") (some "x")] none)
    (fun _ => GenResult.exn) "o2.wav"
  have h1 : process_text "x" none = "x" := by decide
  have h2 : strBlank "x" = false := by decide
  refine ⟨?_, ?_, ?_⟩
  · exact h.2.2.2.1 0 _ rfl rfl (by decide)
  · apply h.2.1
    simp [barkRun, barkLoop, barkStep, barkTry, barkAttempt, barkMade,
      barkBoundary, barkInit, barkIsPause, h1, h2]
  · obtain ⟨st, hst, _hiff, _hempty, hwarn⟩ := h.2.2.2.2
      (by
        intro c hc
        rw [List.mem_singleton] at hc
        subst hc
        exact ⟨rfl, rfl⟩)
    exact ⟨st, hst, hwarn 0 _ "a" rfl rfl rfl⟩

end PiConfig
